import Mathlib

/-!
Verification of the SNMP codec / session / walk layer vendored in
syno_exporter (github.com/soniah/gosnmp: marshal.go, walk.go).

Bytes are modelled as natural numbers below 256 in lists (Go byte
slices).  Fallible Go functions return a result in a three-valued
monad: a normal value, a returned error value, or a Go runtime panic.
Helper functions of the gosnmp package whose definitions are not part
of the vendored sources (helper.go / gosnmp.go) are modelled from the
specification; each such definition carries a doc comment starting
with the words Modelled from the spec.
-/

namespace Gosnmp

/-- Error values returned by the embedded Go functions (the Go code
returns fmt.Errorf values; we only track which error site fired). -/
inductive Err where
  | invalidPacketHeader
  | packetSanity
  | parseVersion
  | parseCommunity
  | invalidV3Header
  | parseV3Field
  | invalidV3SecParams
  | secParamsType
  | usmParamsSeq
  | authParamSize
  | notAuthentic
  | scopedPDU
  | unknownPDUType
  | responseSanity
  | parseResponseField
  | expectedSequenceVBL
  | vblSanity
  | expectedSequenceVB
  | parseOIDValue
  | oidTypeAssert
  | decodeValueErr
  | unknownFieldType
  | zeroLengthOID
  | recovered
  | oidNotIncreasing (name : List Char)
  | unsupportedRequestType
  | fuelExhausted
  deriving DecidableEq, Repr

/-- Outcome of running a fallible Go computation: a value, a returned
error, or a runtime panic (for example an out-of-range slice index). -/
inductive GoResult (α : Type) where
  | ok : α → GoResult α
  | fail : Err → GoResult α
  | panicked : GoResult α
  deriving DecidableEq, Repr

namespace GoResult

def bind {α β : Type} : GoResult α → (α → GoResult β) → GoResult β
  | .ok a, f => f a
  | .fail e, _ => .fail e
  | .panicked, _ => .panicked

end GoResult

instance : Monad GoResult where
  pure := GoResult.ok
  bind := GoResult.bind

/-- Go slice indexing b[i]: returns the byte, or panics when the index
is out of range (Go: index out of range runtime panic). -/
def idx (l : List Nat) (i : Nat) : GoResult Nat :=
  match l.get? i with
  | some b => .ok b
  | none => .panicked

/-- Modelled from the spec: minimal big-endian base-256 digits of a
natural number (helper used by the length and unsigned-integer
encoders of the missing helper.go). -/
def natToBytesBE (n : Nat) : List Nat :=
  if h : n = 0 then [] else natToBytesBE (n / 256) ++ [n % 256]
  decreasing_by exact Nat.div_lt_self (Nat.pos_of_ne_zero h) (by decide)

/-- Modelled from the spec: minimal big-endian unsigned encoding, one
zero byte for the value zero. -/
def minBytesBE (n : Nat) : List Nat :=
  if n = 0 then [0] else natToBytesBE n

/-- Modelled from the spec: BER length encoding (helper.go
marshalLength, absent from src).  Lengths up to 127 use the short
form; longer lengths use a first byte 0x80+k followed by k big-endian
length bytes (spec example: 130 encodes as 0x81 0x82). -/
def marshalLength (n : Nat) : List Nat :=
  if n ≤ 127 then [n]
  else
    let bs := natToBytesBE n
    (128 + bs.length) :: bs

/-- Modelled from the spec: BER length decoding (helper.go
parseLength, absent from src).  Returns the total length of the
tag-length-value field (as compared against the remaining buffer by
unmarshal) and the cursor to the start of the contents.  Reading
bytes[1] on a buffer shorter than two bytes is a Go panic. -/
def parseLength (bytes : List Nat) : GoResult (Nat × Nat) := do
  let b1 ← idx bytes 1
  if b1 ≤ 127 then
    pure (b1 + 2, 2)
  else
    let numOctets := b1 % 128
    let contents := (bytes.drop 2).take numOctets
    if contents.length < numOctets then GoResult.panicked
    else
      let len := contents.foldl (fun acc b => acc * 256 + b) 0
      pure (len + 2 + numOctets, 2 + numOctets)

/-- Modelled from the spec: big-endian unsigned integer decoding of a
field's content bytes. -/
def parseUint (bytes : List Nat) : Nat :=
  bytes.foldl (fun acc b => acc * 256 + b) 0

/-- Modelled from the spec: big-endian two's-complement signed integer
decoding of a field's content bytes. -/
def parseInt (bytes : List Nat) : Int :=
  match bytes with
  | [] => 0
  | b :: _ =>
    let u : Int := parseUint bytes
    if 128 ≤ b then u - 2 ^ (8 * bytes.length) else u

/-- Modelled from the spec: helper.go marshalInt16 (absent from src),
the signed-integer encoder used by marshalVarbind.  Only values 0
through 65535 are supported by the source; within that range the
encoding is the minimum-length big-endian two's-complement form (spec
example: 300 encodes as 0x01 0x2C). -/
def marshalInt16 (v : Int) : Except Err (List Nat) :=
  if v < 0 ∨ 65535 < v then .error .decodeValueErr
  else
    let n := v.toNat
    if n ≤ 127 then .ok [n]
    else if n ≤ 32767 then .ok [n / 256, n % 256]
    else .ok [0, n / 256, n % 256]

/-- Modelled from the spec: helper.go marshalUint32 (absent from src),
the unsigned 32-bit encoder used for Counter32/Gauge32/TimeTicks/
Uinteger32: minimum-length big-endian unsigned bytes. -/
def marshalUint32 (v : Nat) : Except Err (List Nat) :=
  if 4294967295 < v then .error .decodeValueErr else .ok (minBytesBE v)

/-- Modelled from the spec: helper.go marshalUvarInt (absent from
src), used for the v3 engine boots/time counters: minimum-length
big-endian unsigned bytes of a uint32. -/
def marshalUvarInt (v : Nat) : List Nat := minBytesBE v

/-- Modelled from the spec: the 7-bit groups of one OID arc,
most-significant first. -/
def base128Groups (n : Nat) : List Nat :=
  if h : n < 128 then [n] else base128Groups (n / 128) ++ [n % 128]
  decreasing_by exact Nat.div_lt_self (by omega) (by decide)

/-- Sets the continuation bit (0x80) on every group except the last. -/
def withCont : List Nat → List Nat
  | [] => []
  | [g] => [g]
  | g :: gs => (128 + g) :: withCont gs

/-- Modelled from the spec: base-128 varint encoding of one OID arc
(each subsequent arc is a base-128 varint with continuation bit). -/
def marshalBase128 (n : Nat) : List Nat := withCont (base128Groups n)

/-- Modelled from the spec: helper.go marshalOID (absent from src).
OIDs are represented by their arc lists; the first two arcs combine
into one byte (40a+b), each following arc is a base-128 varint. -/
def marshalOID (arcs : List Nat) : Except Err (List Nat) :=
  match arcs with
  | a :: b :: rest => .ok ((40 * a + b) % 256 :: (rest.map marshalBase128).flatten)
  | _ => .error .zeroLengthOID

/-- Modelled from the spec: decodes a run of base-128 varints with
continuation bits; fails on a dangling continuation bit. -/
def parseBase128 : List Nat → Nat → Except Err (List Nat)
  | [], cur => if cur = 0 then .ok [] else .error .zeroLengthOID
  | b :: rest, cur =>
    if b < 128 then
      (fun l => (cur * 128 + b) :: l) <$> parseBase128 rest 0
    else
      parseBase128 rest (cur * 128 + (b - 128))

/-- Modelled from the spec: helper.go parseObjectIdentifier (absent
from src): the first byte splits into the first two arcs (v/40, v%40),
the rest decode as base-128 varints. -/
def parseObjectIdentifier (bytes : List Nat) : Except Err (List Nat) :=
  match bytes with
  | [] => .error .zeroLengthOID
  | b :: rest =>
    (fun l => b / 40 :: b % 40 :: l) <$> parseBase128 rest 0

/-! Asn1BER tags and PDU types.  The Asn1BER constants live in the
missing helper.go; their values are the standard BER/SNMP tag bytes
required by the spec's wire-format section.  The PDUType constants are
in src (marshal.go). -/

/-- Modelled from the spec: Asn1BER tag for INTEGER. -/
def tagInteger : Nat := 0x02
/-- Modelled from the spec: Asn1BER tag for OCTET STRING. -/
def tagOctetString : Nat := 0x04
/-- Modelled from the spec: Asn1BER tag for NULL. -/
def tagNull : Nat := 0x05
/-- Modelled from the spec: Asn1BER tag for OBJECT IDENTIFIER. -/
def tagObjectIdentifier : Nat := 0x06
/-- Modelled from the spec: Asn1BER tag for IpAddress. -/
def tagIPAddress : Nat := 0x40
/-- Modelled from the spec: Asn1BER tag for Counter32. -/
def tagCounter32 : Nat := 0x41
/-- Modelled from the spec: Asn1BER tag for Gauge32. -/
def tagGauge32 : Nat := 0x42
/-- Modelled from the spec: Asn1BER tag for TimeTicks. -/
def tagTimeTicks : Nat := 0x43
/-- Modelled from the spec: Asn1BER tag for Uinteger32. -/
def tagUinteger32 : Nat := 0x47
/-- Modelled from the spec: Asn1BER tag for NoSuchObject. -/
def tagNoSuchObject : Nat := 0x80
/-- Modelled from the spec: Asn1BER tag for NoSuchInstance. -/
def tagNoSuchInstance : Nat := 0x81
/-- Modelled from the spec: Asn1BER tag for EndOfMibView. -/
def tagEndOfMibView : Nat := 0x82

/-- PDUType Sequence (marshal.go). -/
def pduSequence : Nat := 0x30
/-- PDUType GetNextRequest (marshal.go). -/
def pduGetNextRequest : Nat := 0xa1
/-- PDUType GetResponse (marshal.go). -/
def pduGetResponse : Nat := 0xa2
/-- PDUType GetBulkRequest (marshal.go). -/
def pduGetBulkRequest : Nat := 0xa5
/-- PDUType SNMPv2Trap (marshal.go). -/
def pduSNMPv2Trap : Nat := 0xa7
/-- PDUType Report (marshal.go). -/
def pduReport : Nat := 0xa8

/-- Modelled from the spec: the SNMPError value NoSuchName (error
status 2), tested by the walk loop. -/
def errNoSuchName : Nat := 2

/-! The walk algorithm (walk.go). -/

/-- Modelled from the spec: the package-level default base OID
constant substituted for an empty walk root (defined outside src).
Walk identifiers are dotted strings in the source; they are modelled
as their character lists so that the string operations of walk.go
(prefix test, equality, lexicographic order) stay computable. -/
def baseOid : List Char := ".1.3.6.1.2.1".toList

/-- One (identifier, typed value) binding as seen by the walk loop:
only the name and the BER type tag matter to walk.go. -/
structure WalkVar where
  name : List Char
  typ : Nat
  deriving DecidableEq, Repr

/-- The slice of a response packet that walk.go consumes: its varbind
list and its error status. -/
structure WalkResponse where
  Variables : List WalkVar
  Error : Nat
  deriving DecidableEq, Repr

/-- Result of a walk: normal completion with the bindings yielded to
the walk function, an error return, or exhaustion of the supplied
response oracle (the Go loop would issue another request). -/
inductive WalkOutcome where
  | completed (yielded : List WalkVar)
  | failed (e : Err)
  | outOfResponses (yielded : List WalkVar) (nextOid : List Char)
  deriving DecidableEq, Repr

/-- Signal produced by the per-binding inner loop of walk.go
(lines 56-72): break out of the request loop, fail with the
OID-not-increasing error, or continue to the next request. -/
inductive VarsStep where
  | breakLoop (ys : List WalkVar)
  | errored (name : List Char)
  | done (ys : List WalkVar)
  deriving DecidableEq, Repr

/-- The inner for-loop of walk.go (lines 56-72): terminal types and
out-of-root names break the request loop, a name equal to the request
cursor fails with OID not increasing, anything else is yielded. -/
def processVars (rootOid oid : List Char) : List WalkVar → List WalkVar → VarsStep
  | acc, [] => .done acc
  | acc, v :: vs =>
    if v.typ = tagEndOfMibView ∨ v.typ = tagNoSuchObject ∨ v.typ = tagNoSuchInstance then
      .breakLoop acc
    else if ¬ (List.isPrefixOf rootOid v.name) then
      .breakLoop acc
    else if v.name = oid then
      .errored v.name
    else
      processVars rootOid oid (acc ++ [v]) vs

/-- The request loop of walk.go (lines 39-77), with the network round
trips abstracted by a list of getFn outcomes consumed in order. -/
def walkLoop (rootOid : List Char) : List Char → List (Except Err WalkResponse) → List WalkVar →
    WalkOutcome
  | oid, [], acc => .outOfResponses acc oid
  | oid, r :: rs, acc =>
    match r with
    | .error e => .failed e
    | .ok resp =>
      if resp.Variables.length = 0 then .completed acc
      else if resp.Error = errNoSuchName then .completed acc
      else
        match processVars rootOid oid acc resp.Variables with
        | .breakLoop ys => .completed ys
        | .errored nm => .failed (.oidNotIncreasing nm)
        | .done ys =>
          walkLoop rootOid ((resp.Variables.getLastD ⟨oid, 0⟩).name) rs ys

/-- The root normalization at the top of walk.go (lines 13-19): empty
or dot roots become the default base OID, and a missing leading dot is
prepended. -/
def normalizeRoot (rootOid : List Char) : List Char :=
  let r := if rootOid = [] ∨ rootOid = ['.'] then baseOid else rootOid
  if ¬ (List.isPrefixOf ['.'] r) then ['.'] ++ r else r

/-- walk.go entry: normalize the root, then run the request loop with
cursor and prefix root both equal to the normalized root. -/
def walk (rootOid : List Char) (rs : List (Except Err WalkResponse)) : WalkOutcome :=
  walkLoop (normalizeRoot rootOid) (normalizeRoot rootOid) rs []

/-! The message model and the codec value union (marshal.go SnmpPacket
and SnmpPDU; OIDs are represented by their arc lists). -/

/-- The typed-value union carried by a varbind (spec section 3). -/
inductive PDUVal where
  | nullV
  | intV (v : Int)
  | uintV (v : Nat)
  | octets (s : List Nat)
  | oidV (arcs : List Nat)
  | ip (bytes : List Nat)
  deriving DecidableEq, Repr

/-- One varbind as held in SnmpPacket.Variables: OID arcs, BER type
tag, and typed value (Go SnmpPDU has Name, Type, Value). -/
structure SnmpPDU where
  Name : List Nat
  Typ : Nat
  Value : PDUVal
  deriving DecidableEq, Repr

/-- The fields of SnmpPacket (marshal.go) that decoding fills in; Go
zero values stand for fields never assigned. -/
structure SnmpPacketM where
  Version : Nat := 0
  Community : List Nat := []
  MsgID : Nat := 0
  MsgFlags : Nat := 0
  SecurityModel : Nat := 0
  AuthEngineID : List Nat := []
  AuthEngineBoots : Nat := 0
  AuthEngineTime : Nat := 0
  UserName : List Nat := []
  AuthenticationParameters : List Nat := []
  PrivacyParameters : List Nat := []
  ContextEngineID : List Nat := []
  ContextName : List Nat := []
  PDUType : Nat := 0
  RequestID : Nat := 0
  ErrorStatus : Nat := 0
  ErrorIndex : Nat := 0
  NonRepeaters : Nat := 0
  MaxRepetitions : Nat := 0
  Variables : List SnmpPDU := []
  deriving DecidableEq, Repr

/-! The session receive/retry loop of sendOneRequest (marshal.go
lines 159-266). -/

/-- One event seen by the inner receive loop: either x.receive()
returns an error (for example the read deadline expired), or a
datagram arrives and unmarshalling it produces the given result. -/
inductive RecvEvent where
  | recvError
  | pkt (r : GoResult SnmpPacketM)

/-- Outcome of the inner receive loop: a response accepted as the
result, an abort on a receive error, a propagated decode panic, or
exhaustion of the supplied event list (the Go loop would keep
blocking on the socket). -/
inductive RecvOutcome where
  | accepted (p : SnmpPacketM)
  | aborted
  | panicked
  | exhausted
  deriving DecidableEq, Repr

/-- The response-identifier check of sendOneRequest (marshal.go
lines 240-248): scan the attempt identifiers for a match, then accept
identifier zero unconditionally. -/
def validID (allReqIDs : List Nat) (rid : Nat) : Bool :=
  let v := allReqIDs.foldl (fun acc i => if i = rid then true else acc) false
  if rid = 0 then true else v

/-- The inner receive loop of sendOneRequest (marshal.go lines
214-255): receive errors break the loop, decode errors and packets
with no variables or an unmatched request identifier are discarded
and the loop keeps waiting, a matching packet is accepted. -/
def recvLoop (allReqIDs : List Nat) : List RecvEvent → RecvOutcome
  | [] => .exhausted
  | .recvError :: _ => .aborted
  | .pkt .panicked :: _ => .panicked
  | .pkt (.fail _) :: rest => recvLoop allReqIDs rest
  | .pkt (.ok p) :: rest =>
    if p.Variables.length < 1 then recvLoop allReqIDs rest
    else if validID allReqIDs p.RequestID then .accepted p
    else recvLoop allReqIDs rest

/-- Result of the retry loop: a successful packet, the wall-clock
timeout error (Request timeout after N retries), or the last receive
error (the per-attempt read deadline expired), which is what the loop
reports when the retry bound is exhausted. -/
inductive SendResult where
  | success (p : SnmpPacketM)
  | requestTimeout (retries : Nat)
  | readTimeout
  | fuelOut
  deriving DecidableEq, Repr

/-- The retry loop of sendOneRequest (marshal.go lines 165-262)
specialized to the scenario in which every response is lost: each
attempt sends successfully and its receive blocks until the
per-attempt deadline (timeout divided by retries+1) and then fails
with the read-deadline error.  Time is in the same units as the
timeout, measured from the start of the loop; the request-identifier
counter is a uint32 incremented atomically per attempt
(atomic.AddUint32 at marshal.go line 185), so each increment wraps
modulo 2^32 = 4294967296 and the allocated identifier is the wrapped
new counter value.  The fuel argument only bounds the recursion and is
never exhausted when it starts at retriesMax+2. -/
def sendLostLoop (timeout retriesMax finalDeadline : Nat) :
    Nat → Nat → Nat → Nat → List Nat → List Nat → (List Nat × List Nat × SendResult)
  | 0, _, _, _, ids, ds => (ids, ds, .fuelOut)
  | fuel + 1, retries, now, ctr, ids, ds =>
    if 0 < retries ∧ finalDeadline < now then (ids, ds, .requestTimeout (retries - 1))
    else if 0 < retries ∧ retriesMax < retries then (ids, ds, .readTimeout)
    else
      let d := timeout / (retriesMax + 1)
      let reqID := (ctr + 1) % 4294967296
      sendLostLoop timeout retriesMax finalDeadline fuel (retries + 1) (now + d) reqID
        (ids ++ [reqID]) (ds ++ [d])

/-- sendOneRequest with every response lost: the loop starts at retry
zero, time zero, with the wall-clock deadline one full timeout away.
Returns the request identifiers allocated, the per-attempt deadlines
used, and the reported result. -/
def sendAllLost (timeout retriesMax ctr : Nat) : List Nat × List Nat × SendResult :=
  sendLostLoop timeout retriesMax timeout (retriesMax + 2) 0 0 ctr [] []

/-- The deferred recover of send (marshal.go lines 273-277): a Go
panic anywhere below turns into a returned error at the session layer;
every other outcome passes through. -/
def recoverWrap {α : Type} : GoResult α → GoResult α
  | .panicked => .fail .recovered
  | r => r

/-! The wire codec: varbind marshalling (marshal.go marshalVarbind,
marshalVBL) and message unmarshalling (unmarshalVBL,
unmarshalResponse, unmarshal). -/

/-- Go conversion int to uint32 (two's-complement wrap modulo 2^32). -/
def toU32 (v : Int) : Nat := (v % (2 ^ 32 : Int)).toNat

/-- Go conversion int to uint8 (two's-complement wrap modulo 256). -/
def toU8 (v : Int) : Nat := (v % (256 : Int)).toNat

/-- The raw values parseRawField can produce (the Go function returns
interface values that callers type-assert). -/
inductive RawField where
  | int (v : Int)
  | str (s : List Nat)
  | arcs (l : List Nat)
  deriving DecidableEq, Repr

/-- Modelled from the spec: helper.go parseRawField (absent from src).
Reads one tag-length-value field and returns the decoded raw value
together with the total byte count of the field (callers advance
their cursor by that count).  Integer fields decode as signed
two's-complement, octet strings as raw bytes, object identifiers as
arc lists; other tags are an error.  A declared length reaching past
the buffer is a Go slice panic. -/
def parseRawField (data : List Nat) : GoResult (RawField × Nat) := do
  let tag ← idx data 0
  let (flen, cursor) ← parseLength data
  if data.length < flen then GoResult.panicked
  else
    let content := (data.take flen).drop cursor
    if tag = tagInteger then pure (.int (parseInt content), flen)
    else if tag = tagOctetString then pure (.str content, flen)
    else if tag = tagObjectIdentifier then
      match parseObjectIdentifier content with
      | .ok arcs => pure (.arcs arcs, flen)
      | .error e => .fail e
    else .fail .unknownFieldType

/-- A decoded varbind value: the BER type tag and the typed value. -/
structure DecodedVal where
  typ : Nat
  val : PDUVal
  deriving DecidableEq, Repr

/-- Modelled from the spec: helper.go decodeValue (absent from src):
dispatch on the BER tag of a varbind value and decode the content
bytes into the typed-value union; the protocol markers NoSuchObject,
NoSuchInstance and EndOfMibView carry a nil value. -/
def decodeValue (data : List Nat) : GoResult DecodedVal := do
  let tag ← idx data 0
  let (flen, cursor) ← parseLength data
  if data.length < flen then GoResult.panicked
  else
    let content := (data.take flen).drop cursor
    if tag = tagInteger then pure ⟨tagInteger, .intV (parseInt content)⟩
    else if tag = tagCounter32 ∨ tag = tagGauge32 ∨ tag = tagTimeTicks
        ∨ tag = tagUinteger32 then
      pure ⟨tag, .uintV (parseUint content)⟩
    else if tag = tagOctetString then pure ⟨tagOctetString, .octets content⟩
    else if tag = tagObjectIdentifier then
      match parseObjectIdentifier content with
      | .ok arcs => pure ⟨tagObjectIdentifier, .oidV arcs⟩
      | .error e => .fail e
    else if tag = tagIPAddress then pure ⟨tagIPAddress, .ip content⟩
    else if tag = tagNull then pure ⟨tagNull, .nullV⟩
    else if tag = tagNoSuchObject ∨ tag = tagNoSuchInstance ∨ tag = tagEndOfMibView then
      pure ⟨tag, .nullV⟩
    else .fail .decodeValueErr

/-- marshalVarbind (marshal.go lines 639-784): one varbind as a BER
sequence holding the OID and the typed value.  Single-byte length
fields are written modulo 256 exactly as the Go byte casts do.  The
Integer arm models the int case of the source's value switch; the
OctetString and IPAddress arms take the byte-slice case. -/
def marshalVarbind (pdu : SnmpPDU) : Except Err (List Nat) := do
  let oid ← marshalOID pdu.Name
  if pdu.Typ = tagNull then
    .ok ([pduSequence, (oid.length + 4) % 256, tagObjectIdentifier, oid.length % 256]
      ++ oid ++ [tagNull, 0])
  else if pdu.Typ = tagInteger then
    match pdu.Value with
    | .intV v => do
      let intBytes ← marshalInt16 v
      .ok ([pduSequence, (oid.length + intBytes.length + 4) % 256]
        ++ [tagObjectIdentifier, oid.length % 256] ++ oid
        ++ [tagInteger, intBytes.length % 256] ++ intBytes)
    | _ => .error .decodeValueErr
  else if pdu.Typ = tagCounter32 ∨ pdu.Typ = tagGauge32 ∨ pdu.Typ = tagTimeTicks
      ∨ pdu.Typ = tagUinteger32 then
    match pdu.Value with
    | .uintV v => do
      let intBytes ← marshalUint32 v
      .ok ([pduSequence, (oid.length + intBytes.length + 4) % 256]
        ++ [tagObjectIdentifier, oid.length % 256] ++ oid
        ++ [pdu.Typ, intBytes.length % 256] ++ intBytes)
    | _ => .error .decodeValueErr
  else if pdu.Typ = tagOctetString then
    match pdu.Value with
    | .octets s =>
      .ok ([pduSequence, (oid.length + s.length + 4) % 256]
        ++ [tagObjectIdentifier, oid.length % 256] ++ oid
        ++ [tagOctetString, s.length % 256] ++ s)
    | _ => .error .decodeValueErr
  else if pdu.Typ = tagObjectIdentifier then
    match pdu.Value with
    | .oidV value => do
      let oidBytes ← marshalOID value
      .ok ([pduSequence, (oid.length + oidBytes.length + 4) % 256]
        ++ [tagObjectIdentifier, oid.length % 256] ++ oid
        ++ [pdu.Typ, oidBytes.length % 256] ++ oidBytes)
    | _ => .error .decodeValueErr
  else if pdu.Typ = tagIPAddress then
    match pdu.Value with
    | .ip bytes =>
      .ok ([pduSequence, (oid.length + bytes.length + 4) % 256]
        ++ [tagObjectIdentifier, oid.length % 256] ++ oid
        ++ [tagIPAddress, bytes.length % 256] ++ bytes)
    | _ => .error .decodeValueErr
  else .error .unknownPDUType

/-- marshalVBL (marshal.go lines 614-636): the concatenated varbinds
wrapped in a sequence with a marshalLength-encoded length. -/
def marshalVBL (pdus : List SnmpPDU) : Except Err (List Nat) := do
  let vbs ← pdus.mapM marshalVarbind
  let vblBytes := vbs.flatten
  .ok ([pduSequence] ++ marshalLength vblBytes.length ++ vblBytes)

/-- The varbind-parsing loop of unmarshalVBL (marshal.go lines
1211-1244).  The fuel argument only bounds the recursion; it is never
exhausted when started at the packet length because every iteration
advances the cursor by at least two. -/
def vblLoop (packet : List Nat) (vblLength : Nat) :
    Nat → Nat → List SnmpPDU → GoResult (List SnmpPDU)
  | 0, _, _ => .fail .fuelExhausted
  | fuel + 1, cursor, vars =>
    if cursor < vblLength then do
      let b ← idx packet cursor
      if ¬ (b = 0x30) then .fail .expectedSequenceVB
      else do
        let (_, cursorInc) ← parseLength (packet.drop cursor)
        let cursor := cursor + cursorInc
        let (rawOid, oidLength) ← parseRawField (packet.drop cursor)
        let cursor := cursor + oidLength
        match rawOid with
        | .arcs oid => do
          let v ← decodeValue (packet.drop cursor)
          let (valueLength, _) ← parseLength (packet.drop cursor)
          vblLoop packet vblLength fuel (cursor + valueLength) (vars ++ [⟨oid, v.typ, v.val⟩])
        | _ => .fail .oidTypeAssert
    else pure vars

/-- unmarshalVBL (marshal.go lines 1186-1246): sequence tag check,
exact length check, acceptance of the empty varbind list, then the
varbind loop. -/
def unmarshalVBL (packet : List Nat) : GoResult (List SnmpPDU) := do
  let b0 ← idx packet 0
  if ¬ (b0 = 0x30) then .fail .expectedSequenceVBL
  else do
    let (vblLength, cursor) ← parseLength packet
    if ¬ (packet.length = vblLength) then .fail .vblSanity
    else do
      let b1 ← idx packet 1
      if vblLength = 2 ∧ b1 = 0 then pure []
      else vblLoop packet vblLength packet.length cursor []

/-- unmarshalResponse (marshal.go lines 1109-1183): exact length
check, request identifier, then the bulk counters or the error
status/index pair, then the varbind list. -/
def unmarshalResponse (packet : List Nat) (response : SnmpPacketM) (requestType : Nat) :
    GoResult SnmpPacketM := do
  let response := { response with PDUType := requestType }
  let (getResponseLength, cursor) ← parseLength packet
  if ¬ (packet.length = getResponseLength) then .fail .responseSanity
  else do
    let (rawRequestID, count) ← parseRawField (packet.drop cursor)
    let cursor := cursor + count
    let response := match rawRequestID with
      | .int v => { response with RequestID := toU32 v }
      | _ => response
    if response.PDUType = pduGetBulkRequest then do
      let (rawNonRepeaters, count1) ← parseRawField (packet.drop cursor)
      let cursor := cursor + count1
      let response := match rawNonRepeaters with
        | .int v => { response with NonRepeaters := toU8 v }
        | _ => response
      let (rawMaxRepetitions, count2) ← parseRawField (packet.drop cursor)
      let cursor := cursor + count2
      let response := match rawMaxRepetitions with
        | .int v => { response with MaxRepetitions := toU8 v }
        | _ => response
      let vars ← unmarshalVBL (packet.drop cursor)
      pure { response with Variables := vars }
    else do
      let (rawError, count1) ← parseRawField (packet.drop cursor)
      let cursor := cursor + count1
      let response := match rawError with
        | .int v => { response with ErrorStatus := toU8 v }
        | _ => response
      let (rawErrorIndex, count2) ← parseRawField (packet.drop cursor)
      let cursor := cursor + count2
      let response := match rawErrorIndex with
        | .int v => { response with ErrorIndex := toU8 v }
        | _ => response
      let vars ← unmarshalVBL (packet.drop cursor)
      pure { response with Variables := vars }

/-! The v3 security layer pieces reachable from unmarshal and
marshalMsg. -/

/-- Zeroes n bytes of a buffer starting at off (the Go copy of a
blank slice into packet at that range). -/
def zeroRange (l : List Nat) (off n : Nat) : List Nat :=
  l.take off ++ List.replicate (min n (l.length - off)) 0 ++ l.drop (off + n)

/-- Replaces bytes of l from offset off by repl (the Go copy of the
digest into the reserved field). -/
def splice (l : List Nat) (off : Nat) (repl : List Nat) : List Nat :=
  l.take off ++ repl ++ l.drop (off + repl.length)

/-- Flips bit p of a byte buffer: bit p modulo 8 of byte p divided
by 8. -/
def flipBit (l : List Nat) (p : Nat) : List Nat :=
  l.set (p / 8) (Nat.xor (l.getD (p / 8) 0) (2 ^ (p % 8)))

/-- Modelled from the spec: helper code isAuthentic (absent from
src): recompute the truncated keyed digest over the received message,
whose authentication-parameter field the caller has zeroed, and
compare it with the transmitted parameters.  The keyed digest (key
localization plus the MD5- or SHA-based HMAC of the spec) is
abstracted as the digest function argument. -/
def isAuthentic (digest : List Nat → List Nat) (packet authParams : List Nat) : Bool :=
  digest packet == authParams

/-- Modelled from the spec: packet.authenticate (helper code absent
from src).  When the message flags request authentication, the keyed
digest is computed over the fully serialized message, whose 12-byte
authentication-parameter field the serializer left zero-filled, and
the digest is spliced in at the recorded byte offset; otherwise the
message passes through unchanged. -/
def authenticate (digest : List Nat → List Nat) (msg : List Nat) (authParamStart : Nat)
    (msgFlags : Nat) : List Nat :=
  if msgFlags &&& 1 > 0 then splice msg authParamStart (digest msg) else msg

/-- The USM fields that marshalSnmpV3UsmSecurityParameters reads. -/
structure UsmSecurityParameters where
  AuthoritativeEngineID : List Nat
  AuthoritativeEngineBoots : Nat
  AuthoritativeEngineTime : Nat
  UserName : List Nat
  PrivacyParameters : List Nat
  deriving DecidableEq, Repr

/-- The engine-identifier, boots, time and user-name writes at the
start of marshalSnmpV3UsmSecurityParameters (marshal.go lines
413-429); single-byte length fields are Go byte casts, modulo 256. -/
def usmBuf3 (sp : UsmSecurityParameters) : List Nat :=
  [tagOctetString, sp.AuthoritativeEngineID.length % 256] ++ sp.AuthoritativeEngineID
    ++ [tagInteger, (marshalUvarInt sp.AuthoritativeEngineBoots).length % 256]
    ++ marshalUvarInt sp.AuthoritativeEngineBoots
    ++ [tagInteger, (marshalUvarInt sp.AuthoritativeEngineTime).length % 256]
    ++ marshalUvarInt sp.AuthoritativeEngineTime
    ++ [tagOctetString, sp.UserName.length % 256] ++ sp.UserName

/-- marshalSnmpV3UsmSecurityParameters (marshal.go lines 404-464):
serializes the USM block, writing a zero-filled 12-byte
authentication-parameter field when the auth flag is set, and returns
the byte offset of that field's contents inside the returned bytes
(authParamStart, already adjusted for the wrapping sequence header). -/
def marshalSnmpV3UsmSecurityParameters (msgFlags : Nat) (sp : UsmSecurityParameters) :
    Except Err (List Nat × Nat) := do
  let buf3 := usmBuf3 sp
  let authParamStart := buf3.length + 2
  let buf4 :=
    if msgFlags &&& 1 > 0 then buf3 ++ [tagOctetString, 12] ++ List.replicate 12 0
    else buf3 ++ [tagOctetString, 0]
  let buf5 :=
    if msgFlags &&& 3 > 1 then
      buf4 ++ [tagOctetString] ++ marshalLength sp.PrivacyParameters.length
        ++ sp.PrivacyParameters
    else buf4 ++ [tagOctetString, 0]
  let tmpseqHdr := [pduSequence] ++ marshalLength buf5.length
  .ok (tmpseqHdr ++ buf5, authParamStart + tmpseqHdr.length)

/-- The response-side context sendOneRequest prepares before calling
unmarshal: the original message flags and security-parameter presence
copied onto the fresh response, plus the spec-modelled cryptographic
functions (keyed digest for authentication, privacy decryption). -/
structure UnmarshalCtx where
  origMsgFlags : Nat
  hasUsm : Bool
  digest : List Nat → List Nat
  decrypt : List Nat → List Nat

/-- A v1/v2c context with no security processing, for concrete runs. -/
def plainCtx : UnmarshalCtx := ⟨0, false, fun _ => [], fun x => x⟩

/-- The v3 header parsing of unmarshal (marshal.go lines 844-899):
message id, maximum size (discarded), flags, security model, and the
security-parameters octet-string header. -/
def unmarshalV3Header (packet : List Nat) (cursor : Nat) (response : SnmpPacketM) :
    GoResult (Nat × SnmpPacketM) := do
  let b ← idx packet cursor
  if ¬ (b = 0x30) then .fail .invalidV3Header
  else do
    let (_, cursorTmp) ← parseLength (packet.drop cursor)
    let cursor := cursor + cursorTmp
    let (rawMsgID, count0) ← parseRawField (packet.drop cursor)
    let cursor := cursor + count0
    let response := match rawMsgID with
      | .int v => { response with MsgID := toU32 v }
      | _ => response
    let (_, count1) ← parseRawField (packet.drop cursor)
    let cursor := cursor + count1
    let (rawMsgFlags, count2) ← parseRawField (packet.drop cursor)
    let cursor := cursor + count2
    let response ← match rawMsgFlags with
      | .str s => do
          let b0 ← idx s 0
          pure { response with MsgFlags := b0 }
      | _ => pure response
    let (rawSecModel, count3) ← parseRawField (packet.drop cursor)
    let cursor := cursor + count3
    let response := match rawSecModel with
      | .int v => { response with SecurityModel := toU8 v }
      | _ => response
    let b2 ← idx packet cursor
    if ¬ (b2 = tagOctetString) then .fail .invalidV3SecParams
    else do
      let (_, cursorTmp2) ← parseLength (packet.drop cursor)
      let cursor := cursor + cursorTmp2
      pure (cursor, response)

/-- The USM security-parameter parsing of unmarshal (marshal.go lines
901-1003), including the in-place zeroing of the received
authentication-parameter field and the isAuthentic check when the
original message flags requested authentication. -/
def unmarshalV3USM (ctx : UnmarshalCtx) (packet : List Nat) (cursor : Nat)
    (response : SnmpPacketM) : GoResult (List Nat × Nat × SnmpPacketM) := do
  if ¬ ctx.hasUsm then .fail .secParamsType
  else do
    let b ← idx packet cursor
    if ¬ (b = 0x30) then .fail .usmParamsSeq
    else do
      let (_, cursorTmp) ← parseLength (packet.drop cursor)
      let cursor := cursor + cursorTmp
      let (rawEngineID, count0) ← parseRawField (packet.drop cursor)
      let cursor := cursor + count0
      let response := match rawEngineID with
        | .str s => { response with AuthEngineID := s }
        | _ => response
      let (rawBoots, count1) ← parseRawField (packet.drop cursor)
      let cursor := cursor + count1
      let response := match rawBoots with
        | .int v => { response with AuthEngineBoots := toU32 v }
        | _ => response
      let (rawTime, count2) ← parseRawField (packet.drop cursor)
      let cursor := cursor + count2
      let response := match rawTime with
        | .int v => { response with AuthEngineTime := toU32 v }
        | _ => response
      let (rawUserName, count3) ← parseRawField (packet.drop cursor)
      let cursor := cursor + count3
      let response := match rawUserName with
        | .str s => { response with UserName := s }
        | _ => response
      let (rawAuthParams, countA) ← parseRawField (packet.drop cursor)
      let response := match rawAuthParams with
        | .str s => { response with AuthenticationParameters := s }
        | _ => response
      let packet ←
        if ctx.origMsgFlags &&& 1 > 0 then
          if ¬ (countA = 14) then GoResult.fail .authParamSize
          else
            let zeroed := zeroRange packet (cursor + 2) 12
            if isAuthentic ctx.digest zeroed response.AuthenticationParameters then
              pure zeroed
            else GoResult.fail .notAuthentic
        else pure packet
      let cursor := cursor + countA
      let (rawPrivParams, countP) ← parseRawField (packet.drop cursor)
      let cursor := cursor + countP
      let response := match rawPrivParams with
        | .str s => { response with PrivacyParameters := s }
        | _ => response
      pure (packet, cursor, response)

/-- The Sequence case of unmarshal's scoped-PDU switch (marshal.go
lines 1060-1092), also reached by fallthrough after decryption:
truncate the buffer to the scoped PDU and parse the context engine
identifier and context name. -/
def unmarshalScopedSeq (packet : List Nat) (cursor : Nat) (response : SnmpPacketM) :
    GoResult (List Nat × Nat × SnmpPacketM) := do
  let (tlength, cursorTmp) ← parseLength (packet.drop cursor)
  let packet := packet.take (cursor + tlength)
  let cursor := cursor + cursorTmp
  let (rawContextEngineID, count0) ← parseRawField (packet.drop cursor)
  let cursor := cursor + count0
  let response := match rawContextEngineID with
    | .str s => { response with ContextEngineID := s }
    | _ => response
  let (rawContextName, count1) ← parseRawField (packet.drop cursor)
  let cursor := cursor + count1
  let response := match rawContextName with
    | .str s => { response with ContextName := s }
    | _ => response
  pure (packet, cursor, response)

/-- unmarshal's scoped-PDU switch (marshal.go lines 1004-1092): an
octet string means an encrypted PDU, decrypted in place (the cipher is
the ctx.decrypt abstraction) and then handled by the Sequence case via
fallthrough; a sequence is a plaintext PDU; anything else fails. -/
def unmarshalV3Scoped (ctx : UnmarshalCtx) (packet : List Nat) (cursor : Nat)
    (response : SnmpPacketM) : GoResult (List Nat × Nat × SnmpPacketM) := do
  let b ← idx packet cursor
  if b = tagOctetString then do
    let (_, cursorTmp0) ← parseLength (packet.drop cursor)
    let cursorTmp := cursorTmp0 + cursor
    let packet ←
      if response.SecurityModel = 3 then
        if ¬ ctx.hasUsm then GoResult.fail .secParamsType
        else pure (packet.take cursor ++ ctx.decrypt (packet.drop cursorTmp))
      else pure packet
    unmarshalScopedSeq packet cursor response
  else if b = 0x30 then
    unmarshalScopedSeq packet cursor response
  else .fail .scopedPDU

/-- The packet-type dispatch at the end of unmarshal (marshal.go
lines 1094-1106). -/
def unmarshalTail (packet : List Nat) (cursor : Nat) (response : SnmpPacketM) :
    GoResult SnmpPacketM := do
  let requestType ← idx packet cursor
  if requestType = pduGetResponse ∨ requestType = pduGetNextRequest
      ∨ requestType = pduGetBulkRequest ∨ requestType = pduReport
      ∨ requestType = pduSNMPv2Trap then
    unmarshalResponse (packet.drop cursor) response requestType
  else .fail .unknownPDUType

/-- unmarshal (marshal.go lines 788-1107), with the response record
pre-populated by sendOneRequest abstracted into ctx.  The first
access packet[0] is unguarded in the source, so an empty buffer is a
Go runtime panic. -/
def unmarshal (ctx : UnmarshalCtx) (packet : List Nat) : GoResult SnmpPacketM := do
  let response : SnmpPacketM := { MsgFlags := ctx.origMsgFlags }
  let b0 ← idx packet 0
  if ¬ (b0 = 0x30) then .fail .invalidPacketHeader
  else do
    let (length, cursor) ← parseLength packet
    if ¬ (packet.length = length) then .fail .packetSanity
    else do
      let (rawVersion, count0) ← parseRawField (packet.drop cursor)
      let cursor := cursor + count0
      let response := match rawVersion with
        | .int v => { response with Version := toU8 v }
        | _ => response
      if ¬ (response.Version = 3) then do
        let (rawCommunity, count1) ← parseRawField (packet.drop cursor)
        let cursor := cursor + count1
        let response := match rawCommunity with
          | .str s => { response with Community := s }
          | _ => response
        unmarshalTail packet cursor response
      else do
        let (cursor, response) ← unmarshalV3Header packet cursor response
        let (packet, cursor, response) ←
          if response.SecurityModel = 3 then unmarshalV3USM ctx packet cursor response
          else pure (packet, cursor, response)
        let (packet, cursor, response) ← unmarshalV3Scoped ctx packet cursor response
        unmarshalTail packet cursor response

/-- Validity of an OID arc list for the combined-first-byte encoding:
at least two arcs, the second below 40, and the combined first byte
fitting one byte. -/
def validOIDArcs (arcs : List Nat) : Prop :=
  match arcs with
  | a :: b :: _ => b ≤ 39 ∧ 40 * a + b ≤ 255
  | _ => False

/-- Relates a varbind to the encoded bytes of its value: one disjunct
per value kind of the typed-value union (null, signed integer, the
four unsigned 32-bit kinds, octet string, object identifier, IP
address). -/
def kindSpec (pdu : SnmpPDU) (vbytes : List Nat) : Prop :=
  (pdu.Typ = tagNull ∧ pdu.Value = .nullV ∧ vbytes = [])
  ∨ (pdu.Typ = tagInteger ∧ ∃ v, pdu.Value = .intV v ∧ marshalInt16 v = .ok vbytes)
  ∨ ((pdu.Typ = tagCounter32 ∨ pdu.Typ = tagGauge32 ∨ pdu.Typ = tagTimeTicks
      ∨ pdu.Typ = tagUinteger32)
      ∧ ∃ v, pdu.Value = .uintV v ∧ marshalUint32 v = .ok vbytes)
  ∨ (pdu.Typ = tagOctetString ∧ ∃ s, pdu.Value = .octets s ∧ vbytes = s)
  ∨ (pdu.Typ = tagObjectIdentifier ∧ ∃ w, pdu.Value = .oidV w ∧ validOIDArcs w
      ∧ marshalOID w = .ok vbytes)
  ∨ (pdu.Typ = tagIPAddress ∧ ∃ bs, pdu.Value = .ip bs ∧ vbytes = bs)

/-- A binding the inner walk loop yields and steps over: not a
terminal type, under the root, different from the request cursor. -/
def goodVar (rootOid oid : List Char) (u : WalkVar) : Prop :=
  ¬(u.typ = tagEndOfMibView ∨ u.typ = tagNoSuchObject ∨ u.typ = tagNoSuchInstance)
    ∧ List.isPrefixOf rootOid u.name = true ∧ u.name ≠ oid

instance (rootOid oid : List Char) (u : WalkVar) : Decidable (goodVar rootOid oid u) := by
  unfold goodVar; infer_instance

theorem processVars_cons_good (rootOid oid : List Char) (u : WalkVar) (vs acc : List WalkVar)
    (h : goodVar rootOid oid u) :
    processVars rootOid oid acc (u :: vs) = processVars rootOid oid (acc ++ [u]) vs := by
  obtain ⟨h1, h2, h3⟩ := h
  simp [processVars, h1, h2, h3]

theorem processVars_break (rootOid oid : List Char) (pre : List WalkVar) (v : WalkVar)
    (post : List WalkVar) (acc : List WalkVar)
    (hpre : ∀ u ∈ pre, goodVar rootOid oid u)
    (hv : (v.typ = tagEndOfMibView ∨ v.typ = tagNoSuchObject ∨ v.typ = tagNoSuchInstance)
        ∨ List.isPrefixOf rootOid v.name = false) :
    processVars rootOid oid acc (pre ++ v :: post) = .breakLoop (acc ++ pre) := by
  induction pre generalizing acc with
  | nil =>
    by_cases hterm : v.typ = tagEndOfMibView ∨ v.typ = tagNoSuchObject ∨ v.typ = tagNoSuchInstance
    · simp [processVars, hterm]
    · rcases hv with h | h
      · exact absurd h hterm
      · simp [processVars, hterm, h]
  | cons u us ih =>
    have hstep := processVars_cons_good rootOid oid u (us ++ v :: post) acc
      (hpre u (List.mem_cons_self u us))
    have hrest := ih (acc ++ [u]) (fun w hw => hpre w (List.mem_cons_of_mem u hw))
    rw [List.cons_append, hstep, hrest]
    simp

theorem processVars_errored (rootOid oid : List Char) (pre : List WalkVar) (v : WalkVar)
    (post : List WalkVar) (acc : List WalkVar)
    (hpre : ∀ u ∈ pre, goodVar rootOid oid u)
    (hterm : ¬(v.typ = tagEndOfMibView ∨ v.typ = tagNoSuchObject ∨ v.typ = tagNoSuchInstance))
    (hpref : List.isPrefixOf rootOid v.name = true)
    (heq : v.name = oid) :
    processVars rootOid oid acc (pre ++ v :: post) = .errored v.name := by
  subst heq
  induction pre generalizing acc with
  | nil => simp [processVars, hterm, hpref]
  | cons u us ih =>
    have hstep := processVars_cons_good rootOid v.name u (us ++ v :: post) acc
      (hpre u (List.mem_cons_self u us))
    have hrest := ih (acc ++ [u]) (fun w hw => hpre w (List.mem_cons_of_mem u hw))
    rw [List.cons_append, hstep, hrest]

theorem walkLoop_cons_ok (rootOid oid : List Char) (resp : WalkResponse)
    (rs : List (Except Err WalkResponse)) (acc : List WalkVar)
    (hlen : ¬ resp.Variables.length = 0) (herr : ¬ resp.Error = errNoSuchName) :
    walkLoop rootOid oid (.ok resp :: rs) acc
      = match processVars rootOid oid acc resp.Variables with
        | .breakLoop ys => .completed ys
        | .errored nm => .failed (.oidNotIncreasing nm)
        | .done ys => walkLoop rootOid ((resp.Variables.getLastD ⟨oid, 0⟩).name) rs ys := by
  simp [walkLoop, hlen, herr]

/-- C7: during a walk, a response binding whose type is
end-of-mib-view, no-such-object or no-such-instance, or whose name is
not under the walk root, makes the walk yield the bindings seen before
it in that response and terminate without error. -/
theorem c7_walk_terminates_on_terminal_binding (rootOid oid : List Char) (acc : List WalkVar)
    (resp : WalkResponse) (rs : List (Except Err WalkResponse))
    (pre : List WalkVar) (v : WalkVar) (post : List WalkVar)
    (hvars : resp.Variables = pre ++ v :: post)
    (herr : resp.Error ≠ errNoSuchName)
    (hpre : ∀ u ∈ pre, goodVar rootOid oid u)
    (hv : (v.typ = tagEndOfMibView ∨ v.typ = tagNoSuchObject ∨ v.typ = tagNoSuchInstance)
        ∨ List.isPrefixOf rootOid v.name = false) :
    walkLoop rootOid oid (.ok resp :: rs) acc = .completed (acc ++ pre) := by
  have hlen : ¬ resp.Variables.length = 0 := by simp [hvars]
  rw [walkLoop_cons_ok rootOid oid resp rs acc hlen herr, hvars,
    processVars_break rootOid oid pre v post acc hpre hv]

theorem c7_walk_terminates_on_terminal_binding_witness :
    walkLoop ".1".toList ".1".toList
      [Except.ok ⟨[⟨".1.5".toList, tagInteger⟩, ⟨".1.9".toList, tagEndOfMibView⟩], 0⟩] []
      = WalkOutcome.completed [⟨".1.5".toList, tagInteger⟩] := by
  simpa using c7_walk_terminates_on_terminal_binding ".1".toList ".1".toList []
    ⟨[⟨".1.5".toList, tagInteger⟩, ⟨".1.9".toList, tagEndOfMibView⟩], 0⟩ []
    [⟨".1.5".toList, tagInteger⟩] ⟨".1.9".toList, tagEndOfMibView⟩ []
    rfl (by decide) (by decide) (by decide)

/-- C3 counterexample: a response binding lexicographically smaller
than (but not equal to) the request cursor does not terminate the walk
with a protocol-violation error; the code yields it and keeps walking,
and the walk here ends successfully.  The cursor after the first
response is .1.3 and the second response returns .1.2 < .1.3. -/
theorem c3_counterexample :
    walk ".1".toList
        [Except.ok ⟨[⟨".1.3".toList, tagInteger⟩], 0⟩,
         Except.ok ⟨[⟨".1.2".toList, tagInteger⟩], 0⟩,
         Except.ok ⟨[⟨".1.9".toList, tagEndOfMibView⟩], 0⟩]
      = WalkOutcome.completed [⟨".1.3".toList, tagInteger⟩, ⟨".1.2".toList, tagInteger⟩]
    ∧ ".1.2".toList < ".1.3".toList := by
  exact ⟨by decide, by decide⟩

/-- C3 amended: the walk's non-increase guard fires only on equality:
a response binding that passes the type and prefix checks and whose
name equals the current request cursor makes the walk fail with the
OID-not-increasing protocol-violation error, yielding nothing. -/
theorem c3_amended_equal_cursor_fails (rootOid oid : List Char) (acc : List WalkVar)
    (resp : WalkResponse) (rs : List (Except Err WalkResponse))
    (pre : List WalkVar) (v : WalkVar) (post : List WalkVar)
    (hvars : resp.Variables = pre ++ v :: post)
    (herr : resp.Error ≠ errNoSuchName)
    (hpre : ∀ u ∈ pre, goodVar rootOid oid u)
    (hterm : ¬(v.typ = tagEndOfMibView ∨ v.typ = tagNoSuchObject ∨ v.typ = tagNoSuchInstance))
    (hpref : List.isPrefixOf rootOid v.name = true)
    (heq : v.name = oid) :
    walkLoop rootOid oid (.ok resp :: rs) acc = .failed (.oidNotIncreasing v.name) := by
  have hlen : ¬ resp.Variables.length = 0 := by simp [hvars]
  rw [walkLoop_cons_ok rootOid oid resp rs acc hlen herr, hvars,
    processVars_errored rootOid oid pre v post acc hpre hterm hpref heq]

theorem c3_amended_equal_cursor_fails_witness :
    walkLoop ".1".toList ".1.4".toList [Except.ok ⟨[⟨".1.4".toList, tagInteger⟩], 0⟩] []
      = WalkOutcome.failed (.oidNotIncreasing ".1.4".toList) := by
  simpa using c3_amended_equal_cursor_fails ".1".toList ".1.4".toList []
    ⟨[⟨".1.4".toList, tagInteger⟩], 0⟩ [] [] ⟨".1.4".toList, tagInteger⟩ []
    rfl (by decide) (by decide) (by decide) (by decide) rfl

/-- C10: every walk normalizes its root before the first request: walk
runs the request loop with cursor and prefix root equal to the
normalized root, where an empty root or a sole dot becomes the default
base OID and a missing leading dot is prepended. -/
theorem c10_walk_root_normalized :
    (∀ rootOid rs, walk rootOid rs
        = walkLoop (normalizeRoot rootOid) (normalizeRoot rootOid) rs [])
    ∧ normalizeRoot [] = baseOid
    ∧ normalizeRoot ['.'] = baseOid
    ∧ (∀ r, r ≠ [] → r ≠ ['.'] → List.isPrefixOf ['.'] r = false → normalizeRoot r = ['.'] ++ r)
    ∧ (∀ r, r ≠ [] → r ≠ ['.'] → List.isPrefixOf ['.'] r = true → normalizeRoot r = r) := by
  refine ⟨fun _ _ => rfl, by decide, by decide, ?_, ?_⟩
  · intro r h1 h2 h3
    simp [normalizeRoot, h1, h2, h3]
  · intro r h1 h2 h3
    simp [normalizeRoot, h1, h2, h3]

theorem c10_walk_root_normalized_witness :
    normalizeRoot "1.3.6".toList = ".1.3.6".toList
      ∧ normalizeRoot ".1.3.6".toList = ".1.3.6".toList := by
  exact ⟨c10_walk_root_normalized.2.2.2.1 "1.3.6".toList (by decide) (by decide) (by decide),
    c10_walk_root_normalized.2.2.2.2 ".1.3.6".toList (by decide) (by decide) (by decide)⟩

theorem validID_foldl (rid : Nat) (l : List Nat) (b : Bool) :
    l.foldl (fun acc i => if i = rid then true else acc) b
      = (b || l.any (fun i => i = rid)) := by
  induction l generalizing b with
  | nil => simp
  | cons x xs ih =>
    simp only [List.foldl_cons, List.any_cons, ih]
    by_cases h : x = rid <;>
      simp [h, Bool.or_comm, Bool.or_assoc, Bool.or_left_comm]

theorem validID_iff (ids : List Nat) (rid : Nat) :
    validID ids rid = true ↔ rid ∈ ids ∨ rid = 0 := by
  unfold validID
  by_cases h : rid = 0
  · simp [h]
  · simp only [h, if_false, validID_foldl, Bool.false_or, List.any_eq_true,
      decide_eq_true_iff]
    constructor
    · rintro ⟨i, hi, he⟩
      exact Or.inl (he ▸ hi)
    · rintro (hi | hz)
      · exact ⟨rid, hi, rfl⟩
      · exact hz.elim

theorem recvLoop_accepted (ids : List Nat) (evs : List RecvEvent) (p : SnmpPacketM)
    (h : recvLoop ids evs = .accepted p) :
    1 ≤ p.Variables.length ∧ validID ids p.RequestID = true := by
  induction evs with
  | nil => simp [recvLoop] at h
  | cons e rest ih =>
    match e with
    | .recvError => simp [recvLoop] at h
    | .pkt .panicked => simp [recvLoop] at h
    | .pkt (.fail er) => exact ih (by simpa [recvLoop] using h)
    | .pkt (.ok q) =>
      by_cases h1 : q.Variables.length < 1
      · rw [recvLoop, if_pos h1] at h
        exact ih h
      · by_cases h2 : validID ids q.RequestID = true
        · rw [recvLoop, if_neg h1, if_pos h2] at h
          cases h
          exact ⟨by omega, h2⟩
        · rw [recvLoop, if_neg h1, if_neg h2] at h
          exact ih h

/-- C1: a decoded response packet (one that parsed and carries at
least one binding) is accepted by the receive loop exactly when its
request identifier is among the attempt identifiers of the current
logical request or is zero; otherwise it is discarded and the loop
continues with the remaining events of the same deadline window. -/
theorem c1_response_id_matching (ids : List Nat) (p : SnmpPacketM) (rest : List RecvEvent)
    (hv : 1 ≤ p.Variables.length) :
    (recvLoop ids (.pkt (.ok p) :: rest) = .accepted p
        ↔ p.RequestID ∈ ids ∨ p.RequestID = 0)
    ∧ (¬ (p.RequestID ∈ ids ∨ p.RequestID = 0) →
        recvLoop ids (.pkt (.ok p) :: rest) = recvLoop ids rest) := by
  have h1 : ¬ p.Variables.length < 1 := by omega
  constructor
  · constructor
    · intro hacc
      by_cases h2 : validID ids p.RequestID = true
      · exact (validID_iff ids p.RequestID).mp h2
      · rw [recvLoop, if_neg h1, if_neg h2] at hacc
        exact (validID_iff ids p.RequestID).mp (recvLoop_accepted ids rest p hacc).2
    · intro hval
      have h2 : validID ids p.RequestID = true := (validID_iff ids p.RequestID).mpr hval
      rw [recvLoop, if_neg h1, if_pos h2]
  · intro hval
    have h2 : ¬ validID ids p.RequestID = true := by
      intro hc
      exact hval ((validID_iff ids p.RequestID).mp hc)
    rw [recvLoop, if_neg h1, if_neg h2]

theorem c1_response_id_matching_witness :
    (recvLoop [7, 9] [.pkt (.ok { RequestID := 9, Variables := [⟨[1, 3], tagNull, .nullV⟩] })] = .accepted { RequestID := 9, Variables := [⟨[1, 3], tagNull, .nullV⟩] })
    ∧ (recvLoop [7, 9] [.pkt (.ok { RequestID := 8, Variables := [⟨[1, 3], tagNull, .nullV⟩] }), .recvError] = recvLoop [7, 9] [.recvError]) := by
  constructor
  · exact (c1_response_id_matching [7, 9] { RequestID := 9, Variables := [⟨[1, 3], tagNull, .nullV⟩] } [] (by decide)).1.mpr (by decide)
  · exact (c1_response_id_matching [7, 9] { RequestID := 8, Variables := [⟨[1, 3], tagNull, .nullV⟩] } [.recvError] (by decide)).2 (by decide)

theorem map_add_shift (ctr m : Nat) :
    (List.range (m + 1)).map (fun i => (ctr + i + 1) % 4294967296)
      = ((ctr + 1) % 4294967296)
        :: (List.range m).map (fun i => ((ctr + 1) % 4294967296 + i + 1) % 4294967296) := by
  rw [List.range_succ_eq_map, List.map_cons, List.map_map]
  congr 1
  exact List.map_congr_left fun i hi => by simp only [Function.comp_apply]; omega

theorem sendLostLoop_run (t n : Nat) (m : Nat) :
    ∀ k ctr ids ds, k + m = n + 1 →
      sendLostLoop t n t (m + 1) k (k * (t / (n + 1))) ctr ids ds
        = (ids ++ (List.range m).map (fun i => (ctr + i + 1) % 4294967296),
           ds ++ List.replicate m (t / (n + 1)), .readTimeout) := by
  have hmul : ∀ k, k ≤ n + 1 → k * (t / (n + 1)) ≤ t := by
    intro k hk
    calc k * (t / (n + 1)) ≤ (n + 1) * (t / (n + 1)) :=
          Nat.mul_le_mul_right _ hk
      _ = t / (n + 1) * (n + 1) := Nat.mul_comm _ _
      _ ≤ t := Nat.div_mul_le_self t (n + 1)
  induction m with
  | zero =>
    intro k ctr ids ds hk
    have hk1 : k = n + 1 := by omega
    subst hk1
    simp only [sendLostLoop]
    rw [if_neg (by
      rintro ⟨_, hlt⟩
      exact absurd hlt (Nat.not_lt.mpr (hmul (n + 1) le_rfl)))]
    rw [if_pos ⟨by omega, by omega⟩]
    simp
  | succ m ih =>
    intro k ctr ids ds hk
    rw [sendLostLoop]
    rw [if_neg (by
      rintro ⟨_, hlt⟩
      exact absurd hlt (Nat.not_lt.mpr (hmul k (by omega))))]
    rw [if_neg (by rintro ⟨_, hlt⟩; omega)]
    have hstep := ih (k + 1) ((ctr + 1) % 4294967296) (ids ++ [(ctr + 1) % 4294967296])
      (ds ++ [t / (n + 1)]) (by omega)
    have hnow : k * (t / (n + 1)) + t / (n + 1) = (k + 1) * (t / (n + 1)) := by ring
    change sendLostLoop t n t (m + 1) (k + 1) (k * (t / (n + 1)) + t / (n + 1)) ((ctr + 1) % 4294967296) (ids ++ [(ctr + 1) % 4294967296]) (ds ++ [t / (n + 1)]) = _
    rw [hnow, hstep]
    simp only [Prod.mk.injEq]
    refine ⟨?_, ?_, trivial⟩
    · rw [List.append_assoc, List.singleton_append, map_add_shift]
    · rw [List.append_assoc, List.singleton_append, List.replicate_succ]

/-- C2: with retry bound n and every response lost, the send loop
makes exactly n+1 attempts, each with per-attempt deadline equal to
the total timeout divided by n+1 and a freshly allocated request
identifier (the uint32 counter incremented with wrap modulo 2^32)
appended to the attempt list, and then reports the read-deadline
timeout error.  The identifiers of one logical request are pairwise
distinct whenever the attempt count n+1 does not exceed 2^32, the
counter's period. -/
theorem c2_retry_bound (t n ctr : Nat) (hn : n + 1 ≤ 4294967296) :
    sendAllLost t n ctr
      = ((List.range (n + 1)).map (fun i => (ctr + i + 1) % 4294967296),
         List.replicate (n + 1) (t / (n + 1)), .readTimeout)
    ∧ ((List.range (n + 1)).map (fun i => (ctr + i + 1) % 4294967296)).length = n + 1
    ∧ ((List.range (n + 1)).map (fun i => (ctr + i + 1) % 4294967296)).Nodup := by
  refine ⟨?_, by simp, ?_⟩
  · have h := sendLostLoop_run t n (n + 1) 0 ctr [] [] (by omega)
    simpa [sendAllLost] using h
  · refine List.Nodup.map_on ?_ (List.nodup_range _)
    intro i hi j hj hij
    simp only [List.mem_range] at hi hj
    omega

theorem c2_retry_bound_witness :
    2 + 1 ≤ 4294967296
    ∧ (sendAllLost 10 2 5
        = ((List.range 3).map (fun i => (5 + i + 1) % 4294967296),
           List.replicate 3 (10 / 3), SendResult.readTimeout)
      ∧ ((List.range 3).map (fun i => (5 + i + 1) % 4294967296)).length = 3
      ∧ ((List.range 3).map (fun i => (5 + i + 1) % 4294967296)).Nodup) :=
  ⟨by decide, c2_retry_bound 10 2 5 (by decide)⟩

/-! Computation lemmas for the Go result monad and the leaf codecs. -/

@[simp] theorem bind_ok {α β : Type} (a : α) (f : α → GoResult β) :
    (GoResult.ok a >>= f) = f a := rfl

@[simp] theorem bind_fail {α β : Type} (e : Err) (f : α → GoResult β) :
    ((GoResult.fail e : GoResult α) >>= f) = .fail e := rfl

@[simp] theorem bind_panicked {α β : Type} (f : α → GoResult β) :
    ((GoResult.panicked : GoResult α) >>= f) = .panicked := rfl

@[simp] theorem pure_eq_ok {α : Type} (a : α) : (pure a : GoResult α) = .ok a := rfl

@[simp] theorem idx_cons_zero (a : Nat) (t : List Nat) : idx (a :: t) 0 = .ok a := rfl

@[simp] theorem idx_cons_succ (a : Nat) (t : List Nat) (i : Nat) :
    idx (a :: t) (i + 1) = idx t i := rfl

@[simp] theorem idx_nil (i : Nat) : idx [] i = .panicked := by
  cases i <;> rfl

theorem parseUint_append_single (xs : List Nat) (y : Nat) :
    parseUint (xs ++ [y]) = parseUint xs * 256 + y := by
  simp [parseUint, List.foldl_append]

theorem parseUint_natToBytesBE (n : Nat) : parseUint (natToBytesBE n) = n := by
  induction n using Nat.strong_induction_on with
  | _ n ih =>
    by_cases h : n = 0
    · simp [h, natToBytesBE, parseUint]
    · rw [natToBytesBE, dif_neg h, parseUint_append_single,
        ih (n / 256) (Nat.div_lt_self (Nat.pos_of_ne_zero h) (by decide))]
      omega

theorem parseUint_minBytesBE (n : Nat) : parseUint (minBytesBE n) = n := by
  by_cases h : n = 0
  · simp [h, minBytesBE, parseUint]
  · simp [minBytesBE, h, parseUint_natToBytesBE]

theorem parseInt_marshalInt16 (v : Int) (ib : List Nat) (h : marshalInt16 v = .ok ib) :
    parseInt ib = v := by
  unfold marshalInt16 at h
  by_cases h0 : v < 0 ∨ 65535 < v
  · simp [h0] at h
  · push_neg at h0
    obtain ⟨h1, h2⟩ := h0
    simp only [if_neg (by push_neg; exact ⟨h1, h2⟩ : ¬(v < 0 ∨ 65535 < v))] at h
    have hn : ((v.toNat : Int)) = v := Int.toNat_of_nonneg h1
    by_cases hc1 : v.toNat ≤ 127
    · rw [if_pos hc1] at h
      cases h
      simp only [parseInt, parseUint, List.foldl_cons, List.foldl_nil]
      rw [if_neg (by omega)]
      simpa using hn
    · rw [if_neg hc1] at h
      by_cases hc2 : v.toNat ≤ 32767
      · rw [if_pos hc2] at h
        cases h
        have hu : parseUint [v.toNat / 256, v.toNat % 256] = v.toNat := by
          simp only [parseUint, List.foldl_cons, List.foldl_nil]
          omega
        simp only [parseInt, hu]
        rw [if_neg (by omega)]
        simpa using hn
      · rw [if_neg hc2] at h
        cases h
        have hu : parseUint [0, v.toNat / 256, v.toNat % 256] = v.toNat := by
          simp only [parseUint, List.foldl_cons, List.foldl_nil]
          omega
        simp only [parseInt, hu]
        rw [if_neg (by omega)]
        simpa using hn

theorem parseBase128_withCont : ∀ (gs rest : List Nat) (cur : Nat),
    gs ≠ [] → (∀ g ∈ gs, g < 128) →
    parseBase128 (withCont gs ++ rest) cur
      = (fun l => (gs.foldl (fun a g => a * 128 + g) cur) :: l) <$> parseBase128 rest 0
  | [], _, _, hne, _ => absurd rfl hne
  | [g], rest, cur, _, hlt => by
      have hg := hlt g (by simp)
      simp [withCont, parseBase128, hg]
  | g :: g2 :: gs2, rest, cur, _, hlt => by
      have h128 : ¬ (128 + g < 128) := by omega
      have ih := parseBase128_withCont (g2 :: gs2) rest (cur * 128 + g)
        (List.cons_ne_nil g2 gs2) (fun x hx => hlt x (by simp [hx]))
      rw [show withCont (g :: g2 :: gs2) = (128 + g) :: withCont (g2 :: gs2) from rfl,
        List.cons_append, parseBase128, if_neg h128]
      have harith : cur * 128 + (128 + g - 128) = cur * 128 + g := by omega
      rw [harith, ih]
      simp [List.foldl_cons]

theorem base128Groups_ne_nil (n : Nat) : base128Groups n ≠ [] := by
  rw [base128Groups]
  split <;> simp

theorem base128Groups_lt (n : Nat) : ∀ g ∈ base128Groups n, g < 128 := by
  induction n using Nat.strong_induction_on with
  | _ n ih =>
    rw [base128Groups]
    split
    · next h => intro g hg; simp at hg; omega
    · next h =>
      intro g hg
      simp only [List.mem_append, List.mem_singleton] at hg
      rcases hg with hg | hg
      · exact ih (n / 128) (Nat.div_lt_self (by omega) (by decide)) g hg
      · omega

theorem base128Groups_foldl (n : Nat) :
    (base128Groups n).foldl (fun a g => a * 128 + g) 0 = n := by
  induction n using Nat.strong_induction_on with
  | _ n ih =>
    rw [base128Groups]
    split
    · next h => simp
    · next h =>
      rw [List.foldl_append, ih (n / 128) (Nat.div_lt_self (by omega) (by decide))]
      simp only [List.foldl_cons, List.foldl_nil]
      omega

theorem parseBase128_marshal (n : Nat) (rest : List Nat) :
    parseBase128 (marshalBase128 n ++ rest) 0
      = (fun l => n :: l) <$> parseBase128 rest 0 := by
  rw [marshalBase128, parseBase128_withCont (base128Groups n) rest 0
    (base128Groups_ne_nil n) (base128Groups_lt n), base128Groups_foldl]

theorem parseBase128_flatten (arcs rest : List Nat) :
    parseBase128 ((arcs.map marshalBase128).flatten ++ rest) 0
      = (fun l => arcs ++ l) <$> parseBase128 rest 0 := by
  induction arcs with
  | nil =>
    simp only [List.map_nil, List.flatten_nil, List.nil_append]
    cases parseBase128 rest 0 <;> simp
  | cons a t ih =>
    simp only [List.map_cons, List.flatten_cons, List.append_assoc]
    rw [parseBase128_marshal, ih]
    cases parseBase128 rest 0 <;> simp

theorem parseObjectIdentifier_marshalOID (a b : Nat) (t : List Nat)
    (hb : b ≤ 39) (hab : 40 * a + b ≤ 255) (enc : List Nat)
    (henc : marshalOID (a :: b :: t) = .ok enc) :
    parseObjectIdentifier enc = .ok (a :: b :: t) := by
  simp only [marshalOID, Except.ok.injEq] at henc
  subst henc
  have hmod : (40 * a + b) % 256 = 40 * a + b := Nat.mod_eq_of_lt (by omega)
  rw [parseObjectIdentifier, hmod]
  rw [show (t.map marshalBase128).flatten = (t.map marshalBase128).flatten ++ [] by simp,
    parseBase128_flatten]
  have hda : (40 * a + b) / 40 = a := by omega
  have hdb : (40 * a + b) % 40 = b := by omega
  simp [parseBase128, hda, hdb]

theorem parseLength_short (x y : Nat) (rest : List Nat) (hy : y ≤ 127) :
    parseLength (x :: y :: rest) = .ok (y + 2, 2) := by
  simp [parseLength, hy]

theorem take_two_drop (x y : Nat) (l : List Nat) :
    ((x :: y :: l).take (l.length + 2)).drop 2 = l := by
  rw [show l.length + 2 = (l.length + 1) + 1 from rfl,
    List.take_succ_cons, List.take_succ_cons, List.take_length]
  rfl

theorem take_two_drop_append (x y : Nat) (l more : List Nat) :
    ((x :: y :: (l ++ more)).take (l.length + 2)).drop 2 = l := by
  rw [show l.length + 2 = (l.length + 1) + 1 from rfl,
    List.take_succ_cons, List.take_succ_cons, List.take_left]
  rfl

theorem decodeValue_int (ib : List Nat) (v : Int) (hib : marshalInt16 v = .ok ib)
    (h127 : ib.length ≤ 127) :
    decodeValue (tagInteger :: ib.length :: ib) = .ok ⟨tagInteger, .intV v⟩ := by
  have hl : ¬ ((tagInteger :: ib.length :: ib).length < ib.length + 2) := by simp
  simp only [decodeValue, idx_cons_zero, bind_ok, parseLength_short _ _ _ h127,
    if_neg hl, take_two_drop]
  simp [parseInt_marshalInt16 v ib hib]

theorem decodeValue_uint (ub : List Nat) (v : Nat) (tag : Nat)
    (htag : tag = tagCounter32 ∨ tag = tagGauge32 ∨ tag = tagTimeTicks ∨ tag = tagUinteger32)
    (hub : marshalUint32 v = .ok ub) (h127 : ub.length ≤ 127) :
    decodeValue (tag :: ub.length :: ub) = .ok ⟨tag, .uintV v⟩ := by
  have hv : parseUint ub = v := by
    unfold marshalUint32 at hub
    by_cases h : 4294967295 < v
    · simp [h] at hub
    · simp only [if_neg h, Except.ok.injEq] at hub
      rw [← hub, parseUint_minBytesBE]
  have hl : ¬ ((tag :: ub.length :: ub).length < ub.length + 2) := by simp
  have hne : ¬ (tag = tagInteger) := by
    rcases htag with h | h | h | h <;>
      simp [h, tagInteger, tagCounter32, tagGauge32, tagTimeTicks, tagUinteger32]
  simp only [decodeValue, idx_cons_zero, bind_ok, parseLength_short _ _ _ h127,
    if_neg hl, take_two_drop, if_neg hne, if_pos htag]
  simp [hv]

theorem decodeValue_octets (s : List Nat) (h127 : s.length ≤ 127) :
    decodeValue (tagOctetString :: s.length :: s) = .ok ⟨tagOctetString, .octets s⟩ := by
  have hl : ¬ ((tagOctetString :: s.length :: s).length < s.length + 2) := by simp
  simp only [decodeValue, idx_cons_zero, bind_ok, parseLength_short _ _ _ h127,
    if_neg hl, take_two_drop]
  simp [tagOctetString, tagInteger, tagCounter32, tagGauge32, tagTimeTicks, tagUinteger32]

theorem decodeValue_oidV (ob : List Nat) (arcs : List Nat)
    (hoid : parseObjectIdentifier ob = .ok arcs) (h127 : ob.length ≤ 127) :
    decodeValue (tagObjectIdentifier :: ob.length :: ob)
      = .ok ⟨tagObjectIdentifier, .oidV arcs⟩ := by
  have hl : ¬ ((tagObjectIdentifier :: ob.length :: ob).length < ob.length + 2) := by simp
  simp only [decodeValue, idx_cons_zero, bind_ok, parseLength_short _ _ _ h127,
    if_neg hl, take_two_drop]
  simp [hoid, tagObjectIdentifier, tagInteger, tagOctetString,
    tagCounter32, tagGauge32, tagTimeTicks, tagUinteger32]

theorem decodeValue_ip (bs : List Nat) (h127 : bs.length ≤ 127) :
    decodeValue (tagIPAddress :: bs.length :: bs) = .ok ⟨tagIPAddress, .ip bs⟩ := by
  have hl : ¬ ((tagIPAddress :: bs.length :: bs).length < bs.length + 2) := by simp
  simp only [decodeValue, idx_cons_zero, bind_ok, parseLength_short _ _ _ h127,
    if_neg hl, take_two_drop]
  simp [tagIPAddress, tagInteger, tagOctetString, tagObjectIdentifier,
    tagCounter32, tagGauge32, tagTimeTicks, tagUinteger32]

theorem decodeValue_null : decodeValue [tagNull, 0] = .ok ⟨tagNull, .nullV⟩ := by
  decide

theorem parseRawField_oid (ob more : List Nat) (arcs : List Nat)
    (h127 : ob.length ≤ 127) (hoid : parseObjectIdentifier ob = .ok arcs) :
    parseRawField (tagObjectIdentifier :: ob.length :: (ob ++ more))
      = .ok (.arcs arcs, ob.length + 2) := by
  have hl : ¬ ((tagObjectIdentifier :: ob.length :: (ob ++ more)).length < ob.length + 2) := by
    simp
  simp only [parseRawField, idx_cons_zero, bind_ok, parseLength_short _ _ _ h127,
    if_neg hl, take_two_drop_append]
  simp [hoid, tagObjectIdentifier, tagInteger, tagOctetString]

theorem vblLoop_go (packet : List Nat) (V fuel cursor : Nat) (vars : List SnmpPDU)
    (h : cursor < V) :
    vblLoop packet V (fuel + 1) cursor vars
      = (do
          let b ← idx packet cursor
          if ¬ (b = 0x30) then GoResult.fail .expectedSequenceVB
          else do
            let (_, cursorInc) ← parseLength (packet.drop cursor)
            let cursor := cursor + cursorInc
            let (rawOid, oidLength) ← parseRawField (packet.drop cursor)
            let cursor := cursor + oidLength
            match rawOid with
            | .arcs oid => do
              let v ← decodeValue (packet.drop cursor)
              let (valueLength, _) ← parseLength (packet.drop cursor)
              vblLoop packet V fuel (cursor + valueLength) (vars ++ [⟨oid, v.typ, v.val⟩])
            | _ => GoResult.fail .oidTypeAssert) := by
  rw [vblLoop.eq_2, if_pos h]

theorem vblLoop_stop (packet : List Nat) (V fuel cursor : Nat) (vars : List SnmpPDU)
    (h : ¬ cursor < V) :
    vblLoop packet V (fuel + 1) cursor vars = .ok vars := by
  rw [vblLoop.eq_2, if_neg h]
  rfl

theorem unmarshalVBL_single (nb content : List Nat) (tag : Nat) (arcs : List Nat)
    (typ : Nat) (val : PDUVal)
    (hL : nb.length + content.length + 6 ≤ 127)
    (hoid : parseObjectIdentifier nb = .ok arcs)
    (hval : decodeValue (tag :: content.length :: content) = .ok ⟨typ, val⟩) :
    unmarshalVBL (pduSequence :: (nb.length + content.length + 6) :: pduSequence
        :: (nb.length + content.length + 4) :: tagObjectIdentifier :: nb.length
        :: (nb ++ tag :: content.length :: content))
      = .ok [⟨arcs, typ, val⟩] := by
  have hnm4 : nb.length + content.length + 4 ≤ 127 := by omega
  have hn127 : nb.length ≤ 127 := by omega
  have hm127 : content.length ≤ 127 := by omega
  have hdrop6 : (pduSequence :: (nb.length + content.length + 6) :: pduSequence
      :: (nb.length + content.length + 4) :: tagObjectIdentifier :: nb.length
      :: (nb ++ tag :: content.length :: content)).drop (nb.length + 6)
      = tag :: content.length :: content := by
    rw [show nb.length + 6 = 6 + nb.length by omega, ← List.drop_drop]
    rw [show (pduSequence :: (nb.length + content.length + 6) :: pduSequence
      :: (nb.length + content.length + 4) :: tagObjectIdentifier :: nb.length
      :: (nb ++ tag :: content.length :: content)).drop 6
      = nb ++ tag :: content.length :: content from rfl]
    exact List.drop_left nb _
  simp only [unmarshalVBL, idx_cons_zero, idx_cons_succ, bind_ok,
    parseLength_short _ _ _ hL,
    if_neg (not_not_intro (show pduSequence = 0x30 from rfl)),
    List.length_cons, List.length_append]
  have hlen : nb.length + (content.length + 1 + 1) + 1 + 1 + 1 + 1 + 1 + 1
      = nb.length + content.length + 6 + 2 := by omega
  rw [hlen, if_neg (not_not_intro rfl)]
  rw [if_neg (show ¬ (nb.length + content.length + 6 + 2 = 2
      ∧ nb.length + content.length + 6 = 0) by rintro ⟨h1, _⟩; omega)]
  rw [show nb.length + content.length + 6 + 2
      = (nb.length + content.length + 7) + 1 by omega]
  rw [vblLoop_go _ _ _ _ _ (by omega)]
  simp only [idx_cons_succ, idx_cons_zero, bind_ok,
    if_neg (not_not_intro (show pduSequence = 0x30 from rfl)), List.drop_succ_cons,
    List.drop_zero, parseLength_short _ _ _ hnm4]
  rw [show (2 : Nat) + 2 = 4 from rfl]
  rw [parseRawField_oid nb (tag :: content.length :: content) arcs hn127 hoid]
  simp only [bind_ok]
  rw [show (4 : Nat) + (nb.length + 2) = nb.length + 6 by omega]
  rw [hdrop6, hval, parseLength_short _ _ _ hm127]
  simp only [bind_ok]
  rw [show nb.length + 6 + (content.length + 2) = (nb.length + content.length + 7) + 1 by omega]
  rw [vblLoop_stop _ _ _ _ _ (by omega)]
  simp

@[simp] theorem except_bind_ok {α β : Type} (a : α) (f : α → Except Err β) :
    ((Except.ok a : Except Err α) >>= f) = f a := rfl

@[simp] theorem except_pure_eq_ok {α : Type} (a : α) :
    (pure a : Except Err α) = .ok a := rfl

theorem marshalVBL_single (pdu : SnmpPDU) (vb : List Nat)
    (h : marshalVarbind pdu = .ok vb) (hlen : vb.length ≤ 127) :
    marshalVBL [pdu] = .ok (pduSequence :: vb.length :: vb) := by
  have hmapM : List.mapM marshalVarbind [pdu] = .ok [vb] := by
    rw [List.mapM_cons, h]
    rfl
  simp only [marshalVBL, hmapM, except_bind_ok]
  rw [show ([vb] : List (List Nat)).flatten = vb by simp]
  rw [marshalLength, if_pos hlen]
  rfl

theorem c5_core (pdu : SnmpPDU) (oidb vbytes : List Nat)
    (hoidRT : parseObjectIdentifier oidb = .ok pdu.Name)
    (hsz : oidb.length + vbytes.length + 6 ≤ 127)
    (hvb : marshalVarbind pdu = .ok (pduSequence :: (oidb.length + vbytes.length + 4)
        :: tagObjectIdentifier :: oidb.length :: (oidb ++ pdu.Typ :: vbytes.length :: vbytes)))
    (hval : decodeValue (pdu.Typ :: vbytes.length :: vbytes) = .ok ⟨pdu.Typ, pdu.Value⟩) :
    marshalVBL [pdu] = .ok (pduSequence :: (oidb.length + vbytes.length + 6) :: pduSequence
        :: (oidb.length + vbytes.length + 4) :: tagObjectIdentifier :: oidb.length
        :: (oidb ++ pdu.Typ :: vbytes.length :: vbytes))
    ∧ unmarshalVBL (pduSequence :: (oidb.length + vbytes.length + 6) :: pduSequence
        :: (oidb.length + vbytes.length + 4) :: tagObjectIdentifier :: oidb.length
        :: (oidb ++ pdu.Typ :: vbytes.length :: vbytes))
      = .ok [pdu] := by
  have hvblen : (pduSequence :: (oidb.length + vbytes.length + 4) :: tagObjectIdentifier
      :: oidb.length :: (oidb ++ pdu.Typ :: vbytes.length :: vbytes)).length
      = oidb.length + vbytes.length + 6 := by
    simp
    omega
  constructor
  · rw [marshalVBL_single pdu _ hvb (by rw [hvblen]; omega), hvblen]
  · have h := unmarshalVBL_single oidb vbytes pdu.Typ pdu.Name pdu.Typ pdu.Value
      hsz hoidRT hval
    exact h

/-- C5: for every value kind of the typed-value union (null, signed
integer, the counter/gauge/ticks/unsigned 32-bit kinds, octet string,
object identifier, IP address), decoding the encoding of a varbind
carrying that value yields the original (object identifier, typed
value) pair, for well-formed OIDs and encodings that fit the
single-byte length fields the source writes. -/
theorem c5_varbind_roundtrip (pdu : SnmpPDU) (oidb vbytes : List Nat)
    (hoid : marshalOID pdu.Name = .ok oidb)
    (hvalid : validOIDArcs pdu.Name)
    (hkind : kindSpec pdu vbytes)
    (hsz : oidb.length + vbytes.length + 6 ≤ 127) :
    marshalVBL [pdu] = .ok (pduSequence :: (oidb.length + vbytes.length + 6) :: pduSequence
        :: (oidb.length + vbytes.length + 4) :: tagObjectIdentifier :: oidb.length
        :: (oidb ++ pdu.Typ :: vbytes.length :: vbytes))
    ∧ unmarshalVBL (pduSequence :: (oidb.length + vbytes.length + 6) :: pduSequence
        :: (oidb.length + vbytes.length + 4) :: tagObjectIdentifier :: oidb.length
        :: (oidb ++ pdu.Typ :: vbytes.length :: vbytes))
      = .ok [pdu] := by
  have hmod4 : (oidb.length + vbytes.length + 4) % 256 = oidb.length + vbytes.length + 4 :=
    Nat.mod_eq_of_lt (by omega)
  have hmodn : oidb.length % 256 = oidb.length := Nat.mod_eq_of_lt (by omega)
  have hoidRT : parseObjectIdentifier oidb = .ok pdu.Name := by
    obtain ⟨a, b, t, hname, hb, hab⟩ :
        ∃ a b t, pdu.Name = a :: b :: t ∧ b ≤ 39 ∧ 40 * a + b ≤ 255 := by
      unfold validOIDArcs at hvalid
      match hh : pdu.Name with
      | [] => rw [hh] at hvalid; exact (hvalid : False).elim
      | [a] => rw [hh] at hvalid; exact (hvalid : False).elim
      | a :: b :: t =>
        rw [hh] at hvalid
        exact ⟨a, b, t, rfl, (hvalid : _ ∧ _).1, (hvalid : _ ∧ _).2⟩
    rw [hname] at hoid ⊢
    exact parseObjectIdentifier_marshalOID a b t hb hab oidb hoid
  rcases hkind with ⟨hT, hV, hvb0⟩ | ⟨hT, v, hV, hvv⟩ | ⟨hT, v, hV, hvv⟩
    | ⟨hT, s, hV, hvv⟩ | ⟨hT, w, hV, hw, hvv⟩ | ⟨hT, bs, hV, hvv⟩
  · -- null
    subst hvb0
    refine c5_core pdu oidb [] hoidRT hsz ?_ ?_
    · simp [marshalVarbind, hoid, hT, hmodn,
        Nat.mod_eq_of_lt (show oidb.length + 4 < 256 by omega)]
    · rw [hT, hV]
      simpa using decodeValue_null
  · -- integer
    have h127 : vbytes.length ≤ 127 := by omega
    refine c5_core pdu oidb vbytes hoidRT hsz ?_ ?_
    · simp [marshalVarbind, hoid, hT, hV, hvv, hmodn, hmod4, tagInteger, tagNull,
        Nat.mod_eq_of_lt (show vbytes.length < 256 by omega)]
    · rw [hT, hV]
      exact decodeValue_int vbytes v hvv h127
  · -- unsigned 32-bit kinds
    have h127 : vbytes.length ≤ 127 := by omega
    refine c5_core pdu oidb vbytes hoidRT hsz ?_ ?_
    · rcases hT with hT | hT | hT | hT <;>
        simp [marshalVarbind, hoid, hT, hV, hvv, hmodn, hmod4,
          tagCounter32, tagGauge32, tagTimeTicks, tagUinteger32, tagNull, tagInteger,
          Nat.mod_eq_of_lt (show vbytes.length < 256 by omega)]
    · rw [hV]
      exact decodeValue_uint vbytes v pdu.Typ hT hvv h127
  · -- octet string
    subst hvv
    have h127 : vbytes.length ≤ 127 := by omega
    refine c5_core pdu oidb vbytes hoidRT hsz ?_ ?_
    · simp [marshalVarbind, hoid, hT, hV, hmodn, hmod4, tagOctetString, tagNull, tagInteger,
        tagCounter32, tagGauge32, tagTimeTicks, tagUinteger32,
        Nat.mod_eq_of_lt (show vbytes.length < 256 by omega)]
    · rw [hT, hV]
      exact decodeValue_octets vbytes h127
  · -- object identifier value
    have h127 : vbytes.length ≤ 127 := by omega
    have hwRT : parseObjectIdentifier vbytes = .ok w := by
      obtain ⟨a, b, t, hname, hb, hab⟩ :
          ∃ a b t, w = a :: b :: t ∧ b ≤ 39 ∧ 40 * a + b ≤ 255 := by
        unfold validOIDArcs at hw
        match w, hw with
        | [], hw2 => exact (hw2 : False).elim
        | [a], hw2 => exact (hw2 : False).elim
        | a :: b :: t, hw2 => exact ⟨a, b, t, rfl, (hw2 : _ ∧ _).1, (hw2 : _ ∧ _).2⟩
      rw [hname] at hvv ⊢
      exact parseObjectIdentifier_marshalOID a b t hb hab vbytes hvv
    refine c5_core pdu oidb vbytes hoidRT hsz ?_ ?_
    · simp [marshalVarbind, hoid, hT, hV, hvv, hmodn, hmod4, tagObjectIdentifier, tagNull,
        tagInteger, tagCounter32, tagGauge32, tagTimeTicks, tagUinteger32, tagOctetString,
        Nat.mod_eq_of_lt (show vbytes.length < 256 by omega)]
    · rw [hT, hV]
      exact decodeValue_oidV vbytes w hwRT h127
  · -- IP address
    subst hvv
    have h127 : vbytes.length ≤ 127 := by omega
    refine c5_core pdu oidb vbytes hoidRT hsz ?_ ?_
    · simp [marshalVarbind, hoid, hT, hV, hmodn, hmod4, tagIPAddress, tagNull, tagInteger,
        tagCounter32, tagGauge32, tagTimeTicks, tagUinteger32, tagOctetString,
        tagObjectIdentifier, Nat.mod_eq_of_lt (show vbytes.length < 256 by omega)]
    · rw [hT, hV]
      exact decodeValue_ip vbytes h127

theorem c5_varbind_roundtrip_witness :
    (∃ bs, marshalVBL [⟨[1, 3], tagNull, .nullV⟩] = .ok bs
      ∧ unmarshalVBL bs = .ok [⟨[1, 3], tagNull, .nullV⟩])
    ∧ (∃ bs, marshalVBL [⟨[1, 3, 6], tagInteger, .intV 300⟩] = .ok bs
      ∧ unmarshalVBL bs = .ok [⟨[1, 3, 6], tagInteger, .intV 300⟩])
    ∧ (∃ bs, marshalVBL [⟨[1, 3, 6], tagCounter32, .uintV 4294967295⟩] = .ok bs
      ∧ unmarshalVBL bs = .ok [⟨[1, 3, 6], tagCounter32, .uintV 4294967295⟩])
    ∧ (∃ bs, marshalVBL [⟨[1, 3, 6], tagOctetString, .octets [104, 105]⟩] = .ok bs
      ∧ unmarshalVBL bs = .ok [⟨[1, 3, 6], tagOctetString, .octets [104, 105]⟩])
    ∧ (∃ bs, marshalVBL [⟨[1, 3, 6], tagObjectIdentifier, .oidV [1, 3, 6, 1, 300]⟩] = .ok bs
      ∧ unmarshalVBL bs = .ok [⟨[1, 3, 6], tagObjectIdentifier, .oidV [1, 3, 6, 1, 300]⟩])
    ∧ (∃ bs, marshalVBL [⟨[1, 3, 6], tagIPAddress, .ip [192, 168, 0, 1]⟩] = .ok bs
      ∧ unmarshalVBL bs = .ok [⟨[1, 3, 6], tagIPAddress, .ip [192, 168, 0, 1]⟩]) := by
  have hoid2 : marshalOID [1, 3] = .ok [43] := by simp [marshalOID]
  have hoid3 : marshalOID [1, 3, 6] = .ok [43, 6] := by
    simp [marshalOID, marshalBase128, base128Groups, withCont]
  have hoid5 : marshalOID [1, 3, 6, 1, 300] = .ok [43, 6, 1, 130, 44] := by
    simp [marshalOID, marshalBase128, base128Groups, withCont]
  have huint : marshalUint32 4294967295 = .ok [255, 255, 255, 255] := by
    simp [marshalUint32, minBytesBE, natToBytesBE]
  refine ⟨?_, ?_, ?_, ?_, ?_, ?_⟩
  · exact ⟨_, c5_varbind_roundtrip ⟨[1, 3], tagNull, .nullV⟩ [43] [] hoid2
      (by exact ⟨by omega, by omega⟩)
      (Or.inl ⟨rfl, rfl, rfl⟩) (by decide)⟩
  · exact ⟨_, c5_varbind_roundtrip ⟨[1, 3, 6], tagInteger, .intV 300⟩ [43, 6] [1, 44] hoid3
      (by exact ⟨by omega, by omega⟩)
      (Or.inr (Or.inl ⟨rfl, 300, rfl, by simp [marshalInt16]⟩)) (by decide)⟩
  · exact ⟨_, c5_varbind_roundtrip ⟨[1, 3, 6], tagCounter32, .uintV 4294967295⟩ [43, 6]
      [255, 255, 255, 255] hoid3 (by exact ⟨by omega, by omega⟩)
      (Or.inr (Or.inr (Or.inl ⟨Or.inl rfl, 4294967295, rfl, huint⟩))) (by decide)⟩
  · exact ⟨_, c5_varbind_roundtrip ⟨[1, 3, 6], tagOctetString, .octets [104, 105]⟩ [43, 6]
      [104, 105] hoid3 (by exact ⟨by omega, by omega⟩)
      (Or.inr (Or.inr (Or.inr (Or.inl ⟨rfl, [104, 105], rfl, rfl⟩)))) (by decide)⟩
  · exact ⟨_, c5_varbind_roundtrip ⟨[1, 3, 6], tagObjectIdentifier, .oidV [1, 3, 6, 1, 300]⟩
      [43, 6] [43, 6, 1, 130, 44] hoid3 (by exact ⟨by omega, by omega⟩)
      (Or.inr (Or.inr (Or.inr (Or.inr (Or.inl ⟨rfl, [1, 3, 6, 1, 300], rfl,
        by exact ⟨by omega, by omega⟩, hoid5⟩)))))
      (by decide)⟩
  · exact ⟨_, c5_varbind_roundtrip ⟨[1, 3, 6], tagIPAddress, .ip [192, 168, 0, 1]⟩ [43, 6]
      [192, 168, 0, 1] hoid3 (by exact ⟨by omega, by omega⟩)
      (Or.inr (Or.inr (Or.inr (Or.inr (Or.inr ⟨rfl, [192, 168, 0, 1], rfl, rfl⟩)))))
      (by decide)⟩

/-- C6: decoding rejects any buffer whose declared outer BER length
does not equal the actual remaining buffer length; the exact-length
check is enforced both on the outer message envelope (unmarshal) and
on the response PDU envelope (unmarshalResponse). -/
theorem c6_exact_length_enforced :
    (∀ (ctx : UnmarshalCtx) (packet : List Nat) (l c : Nat),
      parseLength packet = .ok (l, c) → ¬ packet.length = l →
      ∃ e, unmarshal ctx packet = .fail e)
    ∧ (∀ (packet : List Nat) (response : SnmpPacketM) (rt l c : Nat),
      parseLength packet = .ok (l, c) → ¬ packet.length = l →
      unmarshalResponse packet response rt = .fail .responseSanity) := by
  constructor
  · intro ctx packet l c hp hm
    match packet with
    | [] => simp [parseLength] at hp
    | [a] => simp [parseLength] at hp
    | a :: b :: t =>
      by_cases ha : a = 0x30
      · refine ⟨.packetSanity, ?_⟩
        simp only [unmarshal, idx_cons_zero, bind_ok, hp, if_neg (not_not_intro ha), hm,
          not_false_eq_true, if_true, if_pos]
      · exact ⟨.invalidPacketHeader, by simp [unmarshal, ha]⟩
  · intro packet response rt l c hp hm
    simp only [unmarshalResponse, hp, bind_ok, hm, not_false_eq_true, if_pos]

theorem c6_exact_length_enforced_witness :
    (∃ e, unmarshal plainCtx [0x30, 5, 2, 1, 0] = .fail e)
    ∧ unmarshalResponse [0xa2, 5, 2, 1, 0] {} 0xa2 = .fail .responseSanity := by
  constructor
  · exact c6_exact_length_enforced.1 plainCtx [0x30, 5, 2, 1, 0] 7 2 (by decide) (by decide)
  · exact c6_exact_length_enforced.2 [0xa2, 5, 2, 1, 0] {} 0xa2 7 2 (by decide) (by decide)

/-- C8 counterexample: decoding can panic; the empty buffer makes
unmarshal read packet[0] out of range, a Go runtime panic rather than
a typed decode error, so the claim that every buffer index is
bounds-checked fails. -/
theorem c8_counterexample : unmarshal plainCtx [] = .panicked := rfl

/-- C8 amended: decoding is not fully bounds-checked and can panic on
malformed input (the empty buffer panics on its first index), but the
session layer's send wraps the exchange in a deferred recover that
converts any such panic into a returned error, so the process never
aborts and the caller still receives an error value. -/
theorem c8_amended_panic_recovered :
    unmarshal plainCtx [] = .panicked
    ∧ recoverWrap (unmarshal plainCtx []) = .fail .recovered
    ∧ (∀ r : GoResult SnmpPacketM, recoverWrap r ≠ .panicked) := by
  refine ⟨rfl, rfl, ?_⟩
  intro r
  cases r <;> simp [recoverWrap]

/-- C9: a successful result of the send loop always carries at least
one binding: the varbind-list decoder itself accepts an empty list,
but sendOneRequest treats a decoded packet with no bindings exactly
like a decode failure, continuing the receive loop, so no accepted
packet has an empty binding sequence. -/
theorem c9_no_empty_success :
    unmarshalVBL [0x30, 0] = .ok []
    ∧ (∀ (ids : List Nat) (p : SnmpPacketM) (rest : List RecvEvent), p.Variables = [] →
        recvLoop ids (.pkt (.ok p) :: rest) = recvLoop ids rest)
    ∧ (∀ (ids : List Nat) (evs : List RecvEvent) (p : SnmpPacketM),
        recvLoop ids evs = .accepted p → 1 ≤ p.Variables.length) := by
  refine ⟨by decide, ?_, ?_⟩
  · intro ids p rest hp
    rw [recvLoop, if_pos (by simp [hp])]
  · intro ids evs p h
    exact (recvLoop_accepted ids evs p h).1

theorem c9_no_empty_success_witness :
    recvLoop [4] [.pkt (.ok { RequestID := 4, Variables := [] }), .recvError]
      = recvLoop [4] [.recvError] := by
  exact c9_no_empty_success.2.1 [4] { RequestID := 4, Variables := [] } [.recvError] rfl

/-! Lemmas for the v3 authentication claim. -/

theorem marshal_usm_zero_field (msgFlags : Nat) (sp : UsmSecurityParameters)
    (hflag : msgFlags &&& 1 > 0) (secBytes : List Nat) (aps : Nat)
    (hmarsh : marshalSnmpV3UsmSecurityParameters msgFlags sp = .ok (secBytes, aps)) :
    (secBytes.drop aps).take 12 = List.replicate 12 0 := by
  unfold marshalSnmpV3UsmSecurityParameters at hmarsh
  simp only [Except.ok.injEq, Prod.mk.injEq] at hmarsh
  obtain ⟨hs, ha⟩ := hmarsh
  subst hs ha
  rw [if_pos hflag]
  by_cases hpriv : msgFlags &&& 3 > 1
  · rw [if_pos hpriv]
    rw [Nat.add_comm ((usmBuf3 sp).length + 2)]
    rw [← List.drop_drop, List.drop_left]
    simp only [List.append_assoc]
    rw [← List.drop_drop, List.drop_left]
    simp only [List.cons_append, List.nil_append, List.drop_succ_cons, List.drop_zero]
    rw [List.take_left' (by simp)]
  · rw [if_neg hpriv]
    rw [Nat.add_comm ((usmBuf3 sp).length + 2)]
    rw [← List.drop_drop, List.drop_left]
    simp only [List.append_assoc]
    rw [← List.drop_drop, List.drop_left]
    simp only [List.cons_append, List.nil_append, List.drop_succ_cons, List.drop_zero]
    rw [List.take_left' (by simp)]

theorem zeroRange_decomp (A D C : List Nat) (off : Nat) (hA : A.length = off)
    (hD : D.length = 12) :
    zeroRange (A ++ D ++ C) off 12 = A ++ List.replicate 12 0 ++ C := by
  unfold zeroRange
  have h1 : (A ++ D ++ C).take off = A := by
    rw [List.append_assoc]
    exact List.take_left' hA
  have h2 : (A ++ D ++ C).drop (off + 12) = C :=
    List.drop_left' (by simp [hA, hD])
  have h3 : min 12 ((A ++ D ++ C).length - off) = 12 := by
    simp only [List.length_append, hA, hD]
    omega
  rw [h1, h2, h3]

theorem msg_decomp (msg : List Nat) (off : Nat) (hfit : off + 12 ≤ msg.length)
    (hzero : (msg.drop off).take 12 = List.replicate 12 0) :
    msg = msg.take off ++ List.replicate 12 0 ++ msg.drop (off + 12) := by
  rw [List.append_assoc]
  conv_lhs => rw [← List.take_append_drop off msg]
  congr 1
  conv_lhs => rw [← List.take_append_drop 12 (msg.drop off)]
  rw [hzero, List.drop_drop]

theorem authenticate_flag_eq (digest : List Nat → List Nat) (msg : List Nat)
    (off msgFlags : Nat) (hflag : msgFlags &&& 1 > 0) (hdlen : (digest msg).length = 12) :
    authenticate digest msg off msgFlags
      = msg.take off ++ digest msg ++ msg.drop (off + 12) := by
  rw [authenticate, if_pos hflag, splice, hdlen]

/-- C4: sign-after-serialize authentication.  The USM serializer
leaves a zero-filled 12-byte authentication-parameter field at the
returned offset; signing computes the digest over the fully
serialized, zero-filled message and splices it back in at that
offset; the receiver's zeroing of the field reconstructs exactly the
bytes that were signed, so a genuine message verifies; and flipping
any bit of the signed message outside that field leaves the
transmitted digest intact while changing the recomputed input to the
correspondingly flipped original message, so verification fails
whenever the digest distinguishes the two messages. -/
theorem c4_sign_after_serialize
    (digest : List Nat → List Nat) (msg : List Nat) (off msgFlags : Nat)
    (sp : UsmSecurityParameters) (secBytes : List Nat) (aps : Nat)
    (hflag : msgFlags &&& 1 > 0)
    (hdlen : (digest msg).length = 12)
    (hzero : (msg.drop off).take 12 = List.replicate 12 0)
    (hfit : off + 12 ≤ msg.length)
    (hmarsh : marshalSnmpV3UsmSecurityParameters msgFlags sp = .ok (secBytes, aps)) :
    (secBytes.drop aps).take 12 = List.replicate 12 0
    ∧ zeroRange (authenticate digest msg off msgFlags) off 12 = msg
    ∧ isAuthentic digest (zeroRange (authenticate digest msg off msgFlags) off 12)
        (((authenticate digest msg off msgFlags).drop off).take 12) = true
    ∧ ∀ p, (p / 8 < off ∨ off + 12 ≤ p / 8) → p / 8 < msg.length →
        digest (flipBit msg p) ≠ digest msg →
        zeroRange (flipBit (authenticate digest msg off msgFlags) p) off 12 = flipBit msg p
        ∧ isAuthentic digest
            (zeroRange (flipBit (authenticate digest msg off msgFlags) p) off 12)
            (((flipBit (authenticate digest msg off msgFlags) p).drop off).take 12)
          = false := by
  have hA : (msg.take off).length = off := by
    rw [List.length_take]
    omega
  have hsigned := authenticate_flag_eq digest msg off msgFlags hflag hdlen
  have hdecomp := msg_decomp msg off hfit hzero
  have hextract : ((authenticate digest msg off msgFlags).drop off).take 12 = digest msg := by
    rw [hsigned, List.append_assoc, List.drop_left' hA, List.take_left' hdlen]
  have hzr : zeroRange (authenticate digest msg off msgFlags) off 12 = msg := by
    rw [hsigned, zeroRange_decomp (msg.take off) (digest msg) _ off hA hdlen]
    exact hdecomp.symm
  refine ⟨marshal_usm_zero_field msgFlags sp hflag secBytes aps hmarsh, hzr, ?_, ?_⟩
  · rw [hzr, hextract]
    simp [isAuthentic]
  · intro p hp hplen hdig
    have hgetD : (authenticate digest msg off msgFlags).getD (p / 8) 0
        = msg.getD (p / 8) 0 := by
      rw [hsigned, List.getD_eq_getElem?_getD, List.getD_eq_getElem?_getD]
      rcases hp with hlt | hge
      · have hL : (msg.take off ++ digest msg ++ msg.drop (off + 12))[p / 8]?
            = (msg.take off)[p / 8]? := by
          rw [List.append_assoc]
          exact List.getElem?_append_left (by omega)
        have hR : msg[p / 8]? = (msg.take off)[p / 8]? := by
          conv_lhs => rw [hdecomp]
          rw [List.append_assoc]
          exact List.getElem?_append_left (by omega)
        rw [hL, hR]
      · have hL : (msg.take off ++ digest msg ++ msg.drop (off + 12))[p / 8]?
            = (msg.drop (off + 12))[p / 8 - off - 12]? := by
          rw [List.append_assoc, List.getElem?_append_right (by omega), hA,
            List.getElem?_append_right (by omega), hdlen]
        have hR : msg[p / 8]? = (msg.drop (off + 12))[p / 8 - off - 12]? := by
          conv_lhs => rw [hdecomp]
          rw [List.append_assoc, List.getElem?_append_right (by omega), hA,
            List.getElem?_append_right (by simp; omega), List.length_replicate]
        rw [hL, hR]
    rcases hp with hlt | hge
    · have hflip : flipBit (authenticate digest msg off msgFlags) p
          = (msg.take off).set (p / 8)
              (Nat.xor (msg.getD (p / 8) 0) (2 ^ (p % 8)))
            ++ digest msg ++ msg.drop (off + 12) := by
        rw [flipBit, hgetD, hsigned, List.append_assoc, List.set_append,
          if_pos (by omega), ← List.append_assoc]
      have hflipmsg : flipBit msg p
          = (msg.take off).set (p / 8)
              (Nat.xor (msg.getD (p / 8) 0) (2 ^ (p % 8)))
            ++ List.replicate 12 0 ++ msg.drop (off + 12) := by
        rw [flipBit]
        conv_lhs => rw [hdecomp]
        rw [List.append_assoc, List.set_append, if_pos (by omega), ← List.append_assoc]
        have : msg.getD (p / 8) 0
            = (msg.take off ++ (List.replicate 12 0 ++ msg.drop (off + 12))).getD (p / 8) 0 := by
          conv_lhs => rw [hdecomp]
          rw [List.append_assoc]
        rw [← this]
      have hAset : ((msg.take off).set (p / 8)
          (Nat.xor (msg.getD (p / 8) 0) (2 ^ (p % 8)))).length = off := by
        rw [List.length_set, hA]
      have hzr2 : zeroRange (flipBit (authenticate digest msg off msgFlags) p) off 12
          = flipBit msg p := by
        rw [hflip, zeroRange_decomp _ (digest msg) _ off hAset hdlen, hflipmsg]
      refine ⟨hzr2, ?_⟩
      have hex2 : ((flipBit (authenticate digest msg off msgFlags) p).drop off).take 12
          = digest msg := by
        rw [hflip, List.append_assoc, List.drop_left' hAset, List.take_left' hdlen]
      rw [hzr2, hex2]
      simp only [isAuthentic]
      exact beq_eq_false_iff_ne.mpr hdig
    · have hflip : flipBit (authenticate digest msg off msgFlags) p
          = msg.take off ++ digest msg
            ++ (msg.drop (off + 12)).set (p / 8 - off - 12)
              (Nat.xor (msg.getD (p / 8) 0) (2 ^ (p % 8))) := by
        rw [flipBit, hgetD, hsigned, List.append_assoc, List.set_append,
          if_neg (by omega), List.set_append, if_neg (by omega),
          ← List.append_assoc, hA, hdlen]
      have hflipmsg : flipBit msg p
          = msg.take off ++ List.replicate 12 0
            ++ (msg.drop (off + 12)).set (p / 8 - off - 12)
              (Nat.xor (msg.getD (p / 8) 0) (2 ^ (p % 8))) := by
        rw [flipBit]
        conv_lhs => rw [hdecomp]
        rw [List.append_assoc, List.set_append, if_neg (by omega), List.set_append,
          if_neg (by simp; omega), ← List.append_assoc, hA]
        have : msg.getD (p / 8) 0
            = (msg.take off ++ (List.replicate 12 0 ++ msg.drop (off + 12))).getD (p / 8) 0 := by
          conv_lhs => rw [hdecomp]
          rw [List.append_assoc]
        rw [← this]
        simp
      have hzr2 : zeroRange (flipBit (authenticate digest msg off msgFlags) p) off 12
          = flipBit msg p := by
        rw [hflip, zeroRange_decomp (msg.take off) (digest msg) _ off hA hdlen, hflipmsg]
      refine ⟨hzr2, ?_⟩
      have hex2 : ((flipBit (authenticate digest msg off msgFlags) p).drop off).take 12
          = digest msg := by
        rw [hflip, List.append_assoc, List.drop_left' hA, List.take_left' hdlen]
      rw [hzr2, hex2]
      simp only [isAuthentic]
      exact beq_eq_false_iff_ne.mpr hdig

theorem c4_sign_after_serialize_witness :
    zeroRange (authenticate (fun l => List.replicate 12 (l.foldl (fun a b => a + b) 0 % 256))
        [9, 9, 0, 0, 0, 0, 0, 0, 0, 0, 0, 0, 0, 0, 7] 2 1) 2 12
      = [9, 9, 0, 0, 0, 0, 0, 0, 0, 0, 0, 0, 0, 0, 7]
    ∧ isAuthentic (fun l => List.replicate 12 (l.foldl (fun a b => a + b) 0 % 256))
        (zeroRange (authenticate (fun l => List.replicate 12 (l.foldl (fun a b => a + b) 0 % 256))
          [9, 9, 0, 0, 0, 0, 0, 0, 0, 0, 0, 0, 0, 0, 7] 2 1) 2 12)
        (((authenticate (fun l => List.replicate 12 (l.foldl (fun a b => a + b) 0 % 256))
          [9, 9, 0, 0, 0, 0, 0, 0, 0, 0, 0, 0, 0, 0, 7] 2 1).drop 2).take 12) = true
    ∧ isAuthentic (fun l => List.replicate 12 (l.foldl (fun a b => a + b) 0 % 256))
        (zeroRange (flipBit (authenticate
          (fun l => List.replicate 12 (l.foldl (fun a b => a + b) 0 % 256))
          [9, 9, 0, 0, 0, 0, 0, 0, 0, 0, 0, 0, 0, 0, 7] 2 1) 112) 2 12)
        (((flipBit (authenticate
          (fun l => List.replicate 12 (l.foldl (fun a b => a + b) 0 % 256))
          [9, 9, 0, 0, 0, 0, 0, 0, 0, 0, 0, 0, 0, 0, 7] 2 1) 112).drop 2).take 12)
      = false := by
  have h := c4_sign_after_serialize
    (fun l => List.replicate 12 (l.foldl (fun a b => a + b) 0 % 256))
    [9, 9, 0, 0, 0, 0, 0, 0, 0, 0, 0, 0, 0, 0, 7] 2 1 ⟨[1], 0, 0, [2], []⟩
    [48, 28, 4, 1, 1, 2, 1, 0, 2, 1, 0, 4, 1, 2, 4, 12,
      0, 0, 0, 0, 0, 0, 0, 0, 0, 0, 0, 0, 4, 0] 16
    (by decide) (by decide) (by decide) (by decide) rfl
  obtain ⟨_, h2, h3, h4⟩ := h
  have h5 := h4 112 (Or.inr (by decide)) (by decide) (by decide)
  exact ⟨h2, h3, h5.2⟩

end Gosnmp
